import Mathlib

/-!
Shallow embedding of the MammonVaultV2 treasury-vault contract
(src/contracts/v2/MammonVaultV2.sol, Solidity 0.8.11) for checking the
natural-language specification against the code.

Modelling conventions, fixed once and used throughout:

* All uint256 quantities become `Nat`.  Solidity 0.8 arithmetic is checked:
  subtraction underflow, division by zero and array out-of-bounds access
  revert with an arithmetic panic.  These are modelled by `Except` with
  the distinguished error `VErr.arithPanic`.  Additions and multiplications
  are left as plain `Nat` operations: at realistic token magnitudes they
  cannot reach 2^256, and every theorem below is either conditioned on the
  modelled call succeeding or instantiated at small concrete numbers where
  the model and the EVM agree exactly.
* Named Solidity custom errors (`Mammon__...`) become constructors of
  `VErr`; reverts of external contracts that the vault does not catch
  become `VErr.externalRevert`.
* A reverting entry point rolls the whole transaction back, so an
  `Except.error` result means "state unchanged"; the `applyOp` wrapper
  makes that reading explicit.
* Addresses become `Nat` (0 is the zero address).  ERC20 tokens are
  standard: a transfer of `n` moves exactly `n` (no transfer fees), and
  transfers from the owner into the vault always succeed (the owner's own
  balances are not part of the modelled state).
* The Balancer pool/vault adapter is collapsed into the state: the pool's
  reported token balances (`poolHoldings`, cash + managed with managed
  normally zero), the vault contract's own ERC20 balances
  (`vaultBalances`), and the pool's normalized weights (`poolWeights`).
  `managePoolBalance` WITHDRAW/UPDATE/DEPOSIT pairs from the source are
  collapsed to their net effect: `withdrawFromPool` moves amounts from
  pool holdings to vault balances, `depositToPool` the reverse.
  A gradual weight update with start = end applies instantly (the pool
  contract's documented behaviour), modelled by overwriting `poolWeights`;
  a genuine gradual update is recorded opaquely in `weightSchedule`.
* ERC4626 yield wrappers are external code; their behaviour is a
  `Wrapper` record of response functions, where `none` models a revert of
  the corresponding external call.
-/

namespace Mammon

/-- 10^18, the fixed-point unit (`ONE` in the source). -/
def ONE : Nat := 10 ^ 18

/-- `MIN_WEIGHT = 0.01e18`: minimum pool-token weight used by
`calcNecessaryAmounts`. -/
def MIN_WEIGHT : Nat := 10 ^ 16

/-- `MINIMUM_WEIGHT_CHANGE_DURATION = 4 hours`. -/
def MINIMUM_WEIGHT_CHANGE_DURATION : Nat := 4 * 60 * 60

/-- Source constant `MAX_WEIGHT_CHANGE_RATIO = 10^15`: the largest
weight change factor per second. -/
def MAX_WEIGHT_CHANGE_RATE : Nat := 10 ^ 15

/-- `MAX_MANAGEMENT_FEE = 10^9` (per-second fee proportion). -/
def MAX_MANAGEMENT_FEE : Nat := 10 ^ 9

/-- `type(uint32).max`, the bound on weight-change timestamps. -/
def UINT32_MAX : Nat := 2 ^ 32 - 1

/-- Typed failures of the vault.  Solidity `Mammon__...` custom errors keep
their (de-prefixed) names; `arithPanic` is a checked-arithmetic or
out-of-bounds panic; `externalRevert` is an uncaught revert bubbling out of
an external contract the vault calls. -/
inductive VErr where
  | arithPanic
  | externalRevert
  | valueLengthIsNotSame
  | sumOfWeightIsNotOne
  | weightChangeStartTimeIsAboveMax
  | weightChangeEndTimeIsAboveMax
  | weightChangeEndBeforeStart
  | weightChangeDurationIsBelowMin
  | weightChangeRatioIsAboveMax (index actual maximum : Nat)
  | amountExceedAvailable (index : Nat)
  | oraclePriceIsInvalid (index : Nat)
  | oracleSpotPriceDivergenceExceedsMax (index actual maximum : Nat)
  | oracleIsDelayedBeyondMax (index actual maximum : Nat)
  | oraclesAreDisabled
  | noAvailableFeeForCaller (caller : Nat)
  | guardianIsZeroAddress
  | guardianIsOwner
  | vaultNotInitialized
  | vaultIsFinalized
  deriving DecidableEq, Repr

/-- Price kinds of `IMammonVaultV2.PriceType`. -/
inductive PriceType where
  | determined
  | spot
  | oracle
  deriving DecidableEq, Repr

/-- Checked subtraction: Solidity `a - b` (panics on underflow). -/
def nsub (a b : Nat) : Except VErr Nat :=
  if b ≤ a then .ok (a - b) else .error .arithPanic

/-- Checked division: Solidity `a / b` (panics when `b = 0`). -/
def ndiv (a b : Nat) : Except VErr Nat :=
  if b = 0 then .error .arithPanic else .ok (a / b)

/-- Checked array read: Solidity `l[i]` (panics out of bounds). -/
def nget (l : List Nat) (i : Nat) : Except VErr Nat :=
  match l[i]? with
  | some v => .ok v
  | none => .error .arithPanic

/-- Element-wise checked addition of two equal-length arrays (a loop of
checked `+=` in the source; length mismatch is an out-of-bounds panic). -/
def addLists : List Nat → List Nat → Except VErr (List Nat)
  | [], [] => .ok []
  | a :: as, b :: bs => do
    let r ← addLists as bs
    return (a + b) :: r
  | _, _ => .error .arithPanic

/-- Element-wise checked subtraction of two equal-length arrays. -/
def subLists : List Nat → List Nat → Except VErr (List Nat)
  | [], [] => .ok []
  | a :: as, b :: bs =>
    if b ≤ a then do
      let r ← subLists as bs
      return (a - b) :: r
    else .error .arithPanic
  | _, _ => .error .arithPanic

/-- Checked `l[i] += v`. -/
def addAt (l : List Nat) (i v : Nat) : Except VErr (List Nat) :=
  match l[i]? with
  | some x => .ok (l.set i (x + v))
  | none => .error .arithPanic

/-- Checked `l[i] -= v`. -/
def subAt (l : List Nat) (i v : Nat) : Except VErr (List Nat) :=
  match l[i]? with
  | some x => if v ≤ x then .ok (l.set i (x - v)) else .error .arithPanic
  | none => .error .arithPanic

/-- `normalizeWeights(weights, weightSum)` (source lines 1568-1583):
divide every entry by `weightSum` in fixed point, then absorb the rounding
residue `ONE - adjustedSum` into entry 0.  The final write is the checked
expression `newWeights[0] + ONE - adjustedSum`, which panics when
`adjustedSum > newWeights[0] + ONE`, and panics on an empty array (index 0
out of bounds) or `weightSum = 0` (division by zero). -/
def normalizeWeights (weights : List Nat) (weightSum : Nat) :
    Except VErr (List Nat) :=
  if weightSum = 0 then .error .arithPanic
  else
    let newWeights := weights.map (fun w => w * ONE / weightSum)
    match newWeights with
    | [] => .error .arithPanic
    | w0 :: rest =>
      if w0 + rest.sum ≤ w0 + ONE then .ok ((w0 + ONE - (w0 + rest.sum)) :: rest)
      else .error .arithPanic

/-- Per-yield-token immutable data from `YieldTokenStorage`: the index of
the wrapped pool token and the `isWithdrawable` flag. -/
structure YieldTokenCfg where
  underlyingIndex : Nat
  withdrawable : Bool
  deriving DecidableEq, Repr

/-- Immutable configuration of the vault (constructor parameters and
derived immutables).  `numOracles = numPoolTokens` per `OracleStorage`. -/
structure Cfg where
  numPoolTokens : Nat
  numeraireAssetIndex : Nat
  yieldTokens : List YieldTokenCfg
  owner : Nat
  minYieldActionThreshold : Nat
  minReliableVaultValue : Nat
  minSignificantDepositValue : Nat
  maxOracleSpotDivergence : Nat
  maxOracleDelay : Nat
  managementFee : Nat
  minFeeDuration : Nat
  createdAt : Nat
  deriving DecidableEq, Repr

/-- `numTokens = numPoolTokens + numYieldTokens`. -/
def Cfg.numTokens (cfg : Cfg) : Nat :=
  cfg.numPoolTokens + cfg.yieldTokens.length

/-- `getUnderlyingIndexes()` from `YieldTokenStorage`. -/
def Cfg.underlyingIndexes (cfg : Cfg) : List Nat :=
  cfg.yieldTokens.map (·.underlyingIndex)

/-- Behaviour of one external ERC4626 yield wrapper during a call.
`none` in a response models a revert of that external call.
`depositCall a` returns the shares minted for depositing `a` underlying;
`withdrawCall a` returns `(assetsOut, sharesBurned)` for a withdrawal
request of `a` underlying (a standard wrapper has `assetsOut = a`). -/
structure Wrapper where
  convertToAssets : Nat → Nat
  maxDeposit : Option Nat
  maxWithdraw : Option Nat
  depositCall : Nat → Option Nat
  withdrawCall : Nat → Option (Nat × Nat)

/-- External world observed during one call: the block timestamp, the
Chainlink feeds (answer, updatedAt) per pool-token slot, the feed units
(10^decimals), the yield wrappers, and the pool's swap fee. -/
structure Env where
  now : Nat
  oracleFeeds : List (Int × Nat)
  oracleUnits : List Nat
  wrappers : List Wrapper
  swapFee : Nat

/-- Mutable vault + collapsed-adapter state (see the header comment).
`guardiansFee` is the `mapping(address => uint256[])` ledger as an
association list; a missing key reads as the empty array, exactly like the
Solidity mapping default. -/
structure VaultState where
  poolHoldings : List Nat
  vaultBalances : List Nat
  yieldBalances : List Nat
  poolWeights : List Nat
  guardiansFee : List (Nat × List Nat)
  guardiansFeeTotal : List Nat
  guardian : Nat
  lastFeeCheckpoint : Nat
  initialized : Bool
  finalized : Bool
  oraclesEnabled : Bool
  swapEnabled : Bool
  weightSchedule : Option (Nat × Nat × List Nat)
  deriving DecidableEq, Repr

/-- Read `guardiansFee[a]` (mapping default: empty array). -/
def feeOf : List (Nat × List Nat) → Nat → List Nat
  | [], _ => []
  | q :: m, a => if q.1 = a then q.2 else feeOf m a

/-- Write `guardiansFee[a] = v`. -/
def setLedger : List (Nat × List Nat) → Nat → List Nat →
    List (Nat × List Nat)
  | [], a, v => [(a, v)]
  | q :: m, a, v =>
    if q.1 = a then (a, v) :: m else q :: setLedger m a v

/-- `delete guardiansFee[a]`. -/
def delLedger : List (Nat × List Nat) → Nat → List (Nat × List Nat)
  | [], _ => []
  | q :: m, a =>
    if q.1 = a then delLedger m a else q :: delLedger m a

/-- `getFeeIndex(lockGuaranteedFee)` (source lines 1413-1433): elapsed
seconds since the last fee checkpoint (0 when not in the past), plus, when
`lockGuaranteedFee` is set, the remaining time until
`createdAt + minFeeDuration` when that point is still in the future. -/
def getFeeIndex (now lastFeeCheckpoint createdAt minFeeDuration : Nat)
    (lockGuaranteedFee : Bool) : Nat :=
  let base := if lastFeeCheckpoint < now then now - lastFeeCheckpoint else 0
  if lockGuaranteedFee then
    let minFeeCheckpoint := createdAt + minFeeDuration
    if now < minFeeCheckpoint then base + (minFeeCheckpoint - now) else base
  else base

/-- `getWeightChangeRatio(weight, targetWeight)` (source lines 1440-1449):
`ONE * max(weight, targetWeight) / min(weight, targetWeight)`, written as
the source's conditional; division by zero (a zero weight) panics. -/
def weightChangeRatioOf (weight targetWeight : Nat) : Except VErr Nat :=
  if targetWeight < weight then ndiv (ONE * weight) targetWeight
  else ndiv (ONE * targetWeight) weight

/-- Loop body of `getOraclePrices` (source lines 2384-2415), walking the
feeds with their slot index: the numeraire slot gets price `ONE` and
`updatedAt = 0` (the array default the source never writes); other slots
fail `OraclePriceIsInvalid` on a non-positive answer and rescale to
18 decimals when the feed unit differs from `ONE`. -/
def getOraclePricesAux (numeraireAssetIndex : Nat) (units : List Nat) :
    Nat → List (Int × Nat) → Except VErr (List Nat × List Nat)
  | _, [] => .ok ([], [])
  | i, (answer, upd) :: feeds =>
    if i = numeraireAssetIndex then do
      let (ps, us) ← getOraclePricesAux numeraireAssetIndex units (i + 1) feeds
      return (ONE :: ps, 0 :: us)
    else if answer ≤ 0 then .error (.oraclePriceIsInvalid i)
    else do
      let unit ← nget units i
      let p ← if unit ≠ ONE then ndiv (answer.toNat * ONE) unit
              else pure answer.toNat
      let (ps, us) ← getOraclePricesAux numeraireAssetIndex units (i + 1) feeds
      return (p :: ps, upd :: us)

/-- `getOraclePrices()` returning the 18-decimal prices and the raw
`updatedAt` timestamps (`numOracles = numPoolTokens` slots). -/
def getOraclePrices (cfg : Cfg) (env : Env) :
    Except VErr (List Nat × List Nat) :=
  if env.oracleFeeds.length ≠ cfg.numPoolTokens then .error .arithPanic
  else getOraclePricesAux cfg.numeraireAssetIndex env.oracleUnits 0
    env.oracleFeeds

/-- Staleness loop of `checkOracleStatus` (source lines 2429-2442):
skip the numeraire slot; elsewhere `delay = now - updatedAt[i]` (checked
subtraction) must not exceed `maxOracleDelay`. -/
def checkOracleStatusAux (numeraireAssetIndex now maxOracleDelay : Nat) :
    Nat → List Nat → Except VErr Unit
  | _, [] => .ok ()
  | i, u :: us =>
    if i = numeraireAssetIndex then
      checkOracleStatusAux numeraireAssetIndex now maxOracleDelay (i + 1) us
    else do
      let delay ← nsub now u
      if maxOracleDelay < delay then
        .error (.oracleIsDelayedBeyondMax i delay maxOracleDelay)
      else checkOracleStatusAux numeraireAssetIndex now maxOracleDelay (i + 1) us

/-- `checkOracleStatus(updatedAt)` (source lines 2422-2443): fail
`OraclesAreDisabled` when the oracle subsystem is off, else run the
staleness loop. -/
def checkOracleStatus (oraclesEnabled : Bool)
    (numeraireAssetIndex now maxOracleDelay : Nat) (updatedAt : List Nat) :
    Except VErr Unit :=
  if !oraclesEnabled then .error .oraclesAreDisabled
  else checkOracleStatusAux numeraireAssetIndex now maxOracleDelay 0 updatedAt

/-- `calcSpotPrice` (source lines 1827-1839), the constant-weighted-product
spot price with the source's exact truncating operation order. -/
def calcSpotPrice (tokenBalanceIn tokenWeightIn tokenBalanceOut
    tokenWeightOut swapFee : Nat) : Except VErr Nat := do
  let numer ← ndiv (tokenBalanceIn * ONE) tokenWeightIn
  let denom ← ndiv (tokenBalanceOut * ONE) tokenWeightOut
  let ra ← ndiv (numer * ONE) denom
  let d ← nsub ONE swapFee
  let scale ← ndiv (ONE * ONE) d
  return ra * scale / ONE

/-- Loop of `getSpotPrices` over the pool slots. -/
def getSpotPricesAux (numeraireAssetIndex nh nw swapFee : Nat) :
    Nat → List Nat → List Nat → Except VErr (List Nat)
  | _, [], [] => .ok []
  | i, h :: hs, w :: ws => do
    let p ← if i = numeraireAssetIndex then pure ONE
            else calcSpotPrice nh nw h w swapFee
    let ps ← getSpotPricesAux numeraireAssetIndex nh nw swapFee (i + 1) hs ws
    return p :: ps
  | _, _, _ => .error .arithPanic

/-- `getSpotPrices(poolHoldings)` (source lines 1795-1821): numeraire slot
priced `ONE`, every other slot priced pairwise against the numeraire
balance/weight. -/
def getSpotPrices (cfg : Cfg) (env : Env) (poolHoldings poolWeights : List Nat) :
    Except VErr (List Nat) := do
  let nh ← nget poolHoldings cfg.numeraireAssetIndex
  let nw ← nget poolWeights cfg.numeraireAssetIndex
  getSpotPricesAux cfg.numeraireAssetIndex nh nw env.swapFee 0 poolHoldings
    poolWeights

/-- Loop of `getValue` (source lines 1772-1789) with the slot index:
numeraire amounts count 1:1, others at `amount * price / ONE`. -/
def getValueAux (numeraireAssetIndex : Nat) (amounts : List Nat) :
    Nat → List Nat → Except VErr Nat
  | _, [] => .ok 0
  | i, p :: ps => do
    let a ← nget amounts i
    let rest ← getValueAux numeraireAssetIndex amounts (i + 1) ps
    if i = numeraireAssetIndex then return a + rest
    else return a * p / ONE + rest

/-- `getValue(amounts, prices)`: total value in numeraire terms; the loop
runs over `prices.length` slots. -/
def getValue (numeraireAssetIndex : Nat) (amounts prices : List Nat) :
    Except VErr Nat :=
  getValueAux numeraireAssetIndex amounts 0 prices

/-- Per-yield-token body of `getUnderlyingBalances` (source lines
1964-1982): `convertToAssets(balanceOf(this) - guardiansFeeTotal[slot])`. -/
def underlyingBalancesAux :
    List Wrapper → List Nat → List Nat → Except VErr (List Nat)
  | [], [], [] => .ok []
  | w :: ws, yb :: ybs, ft :: fts => do
    let shares ← nsub yb ft
    let rest ← underlyingBalancesAux ws ybs fts
    return w.convertToAssets shares :: rest
  | _, _, _ => .error .arithPanic

/-- `getUnderlyingBalances()`: underlying-asset value of each yield-token
position net of the outstanding-fee vector. -/
def getUnderlyingBalances (cfg : Cfg) (env : Env) (st : VaultState) :
    Except VErr (List Nat) :=
  if env.wrappers.length ≠ cfg.yieldTokens.length then .error .arithPanic
  else underlyingBalancesAux env.wrappers st.yieldBalances
    (st.guardiansFeeTotal.drop cfg.numPoolTokens)

/-- Accumulating loop of `getUnderlyingTotalBalances` (source lines
1991-2011): add each positive yield-token underlying balance onto its
underlying pool slot. -/
def underlyingTotalBalancesAux :
    List Nat → List (YieldTokenCfg × Nat) → Except VErr (List Nat)
  | tot, [] => .ok tot
  | tot, (yc, ub) :: rest => do
    let tot' ← if 0 < ub then addAt tot yc.underlyingIndex ub else pure tot
    underlyingTotalBalancesAux tot' rest

/-- `getUnderlyingTotalBalances(underlyingIndexes, poolHoldings,
underlyingBalances)`. -/
def getUnderlyingTotalBalances (cfg : Cfg)
    (poolHoldings underlyingBalances : List Nat) : Except VErr (List Nat) :=
  if poolHoldings.length ≠ cfg.numPoolTokens then .error .arithPanic
  else if underlyingBalances.length ≠ cfg.yieldTokens.length then
    .error .arithPanic
  else underlyingTotalBalancesAux poolHoldings
    (cfg.yieldTokens.zip underlyingBalances)

/-- Yield-slot loop of `calcNormalizedWeights` (source lines 2033-2041):
`weight = underlyingBalance * oraclePrice[underlyingIndex] / value`. -/
def calcYieldWeights (value : Nat) (oraclePrices : List Nat) :
    List YieldTokenCfg → List Nat → Except VErr (List Nat)
  | [], [] => .ok []
  | yc :: ycs, ub :: ubs => do
    let p ← nget oraclePrices yc.underlyingIndex
    let w ← ndiv (ub * p) value
    let rest ← calcYieldWeights value oraclePrices ycs ubs
    return w :: rest
  | _, _ => .error .arithPanic

/-- `calcNormalizedWeights(value, oraclePrices, underlyingIndexes,
underlyingBalances)` (source lines 2020-2055): yield weights from oracle
value shares, pool weights scaled by the residual `ONE - Σ yieldWeights`
(whose running subtraction panics when the yield weights exceed `ONE`),
then the rounding residue pushed into slot 0 in either direction. -/
def calcNormalizedWeights (cfg : Cfg) (value : Nat)
    (oraclePrices underlyingBalances poolWeights : List Nat) :
    Except VErr (List Nat) := do
  let yieldWeights ← calcYieldWeights value oraclePrices cfg.yieldTokens
    underlyingBalances
  let poolWeightSum ← nsub ONE yieldWeights.sum
  if poolWeights.length ≠ cfg.numPoolTokens then throw .arithPanic
  let poolScaled := poolWeights.map (fun w => w * poolWeightSum / ONE)
  let weightSum := yieldWeights.sum + poolScaled.sum
  match poolScaled ++ yieldWeights with
  | [] => throw .arithPanic
  | w0 :: rest =>
    if ONE < weightSum then do
      let w0' ← nsub w0 (weightSum - ONE)
      return w0' :: rest
    else
      return (w0 + (ONE - weightSum)) :: rest

/-- `getNormalizedWeights()` (source lines 1044-1069): total vault value at
oracle prices over pool holdings plus yield-token underlying balances, then
`calcNormalizedWeights`. -/
def getNormalizedWeights (cfg : Cfg) (env : Env) (st : VaultState) :
    Except VErr (List Nat) := do
  let (oraclePrices, _) ← getOraclePrices cfg env
  let underlyingBalances ← getUnderlyingBalances cfg env st
  let utb ← getUnderlyingTotalBalances cfg st.poolHoldings underlyingBalances
  let value ← getValue cfg.numeraireAssetIndex utb oraclePrices
  calcNormalizedWeights cfg value oraclePrices underlyingBalances
    st.poolWeights

/-- Divergence loop of `getDeterminedPrices` (source lines 1739-1757):
skip the numeraire; elsewhere the fixed-point ratio of the larger to the
smaller of oracle and spot price must not exceed the maximum. -/
def divergenceLoop (maxDivergence numeraireAssetIndex : Nat) :
    Nat → List Nat → List Nat → Except VErr Unit
  | _, [], [] => .ok ()
  | i, op :: ops, sp :: sps =>
    if i = numeraireAssetIndex then
      divergenceLoop maxDivergence numeraireAssetIndex (i + 1) ops sps
    else do
      let ra ← if sp < op then ndiv (op * ONE) sp else ndiv (sp * ONE) op
      if maxDivergence < ra then
        .error (.oracleSpotPriceDivergenceExceedsMax i ra maxDivergence)
      else divergenceLoop maxDivergence numeraireAssetIndex (i + 1) ops sps
  | _, _, _ => .error .arithPanic

/-- `getDeterminedPrices(amounts)` (source lines 1713-1765): the hybrid
price-selection policy.  Total vault value below `minReliableVaultValue`
short-circuits to ORACLE pricing after the staleness check; otherwise the
oracle/spot divergence gate runs, then a small deposit (below
`minSignificantDepositValue` at spot) takes SPOT prices with no staleness
check, and anything else takes ORACLE prices after the staleness check. -/
def getDeterminedPrices (cfg : Cfg) (env : Env) (st : VaultState)
    (amounts : List Nat) : Except VErr (List Nat × PriceType) := do
  let poolHoldings := st.poolHoldings
  let (oraclePrices, updatedAt) ← getOraclePrices cfg env
  let spotPrices ← getSpotPrices cfg env poolHoldings st.poolWeights
  let underlyingBalances ← getUnderlyingBalances cfg env st
  let utb ← getUnderlyingTotalBalances cfg poolHoldings underlyingBalances
  let totalValue ← getValue cfg.numeraireAssetIndex utb spotPrices
  if totalValue < cfg.minReliableVaultValue then do
    checkOracleStatus st.oraclesEnabled cfg.numeraireAssetIndex env.now
      cfg.maxOracleDelay updatedAt
    return (oraclePrices, PriceType.oracle)
  else do
    divergenceLoop cfg.maxOracleSpotDivergence cfg.numeraireAssetIndex 0
      oraclePrices spotPrices
    let depositValue ← getValue cfg.numeraireAssetIndex amounts spotPrices
    if depositValue < cfg.minSignificantDepositValue then
      return (spotPrices, PriceType.spot)
    else do
      checkOracleStatus st.oraclesEnabled cfg.numeraireAssetIndex env.now
        cfg.maxOracleDelay updatedAt
      return (oraclePrices, PriceType.oracle)

/-- Yield part of `getHoldings()`: `balanceOf(this) - guardiansFeeTotal`
per yield slot (checked subtraction). -/
def holdingsYieldAux : List Nat → List Nat → Except VErr (List Nat)
  | [], [] => .ok []
  | yb :: ybs, ft :: fts => do
    let h ← nsub yb ft
    let rest ← holdingsYieldAux ybs fts
    return h :: rest
  | _, _ => .error .arithPanic

/-- `getHoldings()` (source lines 995-1017): pool holdings followed by
yield-token balances net of the outstanding-fee vector. -/
def getHoldings (cfg : Cfg) (st : VaultState) : Except VErr (List Nat) := do
  if st.poolHoldings.length ≠ cfg.numPoolTokens then throw .arithPanic
  if st.yieldBalances.length ≠ cfg.yieldTokens.length then throw .arithPanic
  let yieldPart ← holdingsYieldAux st.yieldBalances
    (st.guardiansFeeTotal.drop cfg.numPoolTokens)
  return st.poolHoldings ++ yieldPart

/-- `withdrawFromPool(amounts)` (source lines 1349-1358): the
WITHDRAW-then-UPDATE(0) pair, collapsed to its net effect — pool holdings
decrease and the vault's own balances increase by `amounts`.  The Balancer
vault reverts when a pool lacks cash, modelled by the checked
subtraction. -/
def withdrawFromPool (st : VaultState) (amounts : List Nat) :
    Except VErr VaultState := do
  let ph ← subLists st.poolHoldings amounts
  let vb ← addLists st.vaultBalances amounts
  return { st with poolHoldings := ph, vaultBalances := vb }

/-- `depositToPool(amounts)` (source lines 1241-1248): the
UPDATE-then-DEPOSIT pair — pool holdings increase and the vault's own
balances decrease by `amounts`. -/
def depositToPool (st : VaultState) (amounts : List Nat) :
    Except VErr VaultState := do
  let ph ← addLists st.poolHoldings amounts
  let vb ← subLists st.vaultBalances amounts
  return { st with poolHoldings := ph, vaultBalances := vb }

/-- `updatePoolWeights(weights, weightSum)` (source lines 1549-1561): an
instantaneous (start = end = now) pool weight update to the normalized
weights. -/
def updatePoolWeights (st : VaultState) (weights : List Nat)
    (weightSum : Nat) : Except VErr VaultState := do
  let nw ← normalizeWeights weights weightSum
  return { st with poolWeights := nw }

/-- `lockGuardianFees(lockGuaranteedFee)` (source lines 1365-1408): no-op
when `managementFee = 0` or the fee index is 0; otherwise charge
`holdings * feeIndex * managementFee / ONE` per slot, physically pulling
pool-token fees out of the pool into the vault and crediting the current
guardian's ledger and the aggregate outstanding vector for every slot
(yield-token fees are credited without moving tokens). -/
def lockGuardianFees (cfg : Cfg) (env : Env) (st : VaultState)
    (lockGuaranteedFee : Bool) : Except VErr VaultState := do
  if cfg.managementFee = 0 then return st
  let feeIndex := getFeeIndex env.now st.lastFeeCheckpoint cfg.createdAt
    cfg.minFeeDuration lockGuaranteedFee
  if feeIndex = 0 then return st
  let holdings ← getHoldings cfg st
  let fees := holdings.map (fun h => h * feeIndex * cfg.managementFee / ONE)
  let st := { st with lastFeeCheckpoint := env.now }
  let st ← withdrawFromPool st (fees.take cfg.numPoolTokens)
  let ledger ← addLists (feeOf st.guardiansFee st.guardian) fees
  let total ← addLists st.guardiansFeeTotal fees
  return { st with
    guardiansFee := setLedger st.guardiansFee st.guardian ledger,
    guardiansFeeTotal := total }

/-- `claimGuardianFees()` (source lines 945-978): accrue first when the
caller is the current guardian, fail `NoAvailableFeeForCaller` on an
absent (zero-length) ledger, transfer every ledger entry to the caller,
zero the ledger, decrement the aggregate outstanding vector, and delete
the row entirely when the caller is not the current guardian. -/
def claimGuardianFees (cfg : Cfg) (env : Env) (st : VaultState)
    (caller : Nat) : Except VErr (VaultState × List Nat) := do
  if !st.initialized then throw .vaultNotInitialized
  if st.finalized then throw .vaultIsFinalized
  let st ← if caller = st.guardian then lockGuardianFees cfg env st false
           else pure st
  let fees := feeOf st.guardiansFee caller
  if fees.length = 0 then throw (.noAvailableFeeForCaller caller)
  if fees.length ≠ cfg.numTokens then throw .arithPanic
  let total ← subLists st.guardiansFeeTotal fees
  let vb ← subLists st.vaultBalances (fees.take cfg.numPoolTokens)
  let yb ← subLists st.yieldBalances (fees.drop cfg.numPoolTokens)
  let gf := setLedger st.guardiansFee caller (List.replicate cfg.numTokens 0)
  let gf := if caller ≠ st.guardian then delLedger gf caller else gf
  return ({ st with
    guardiansFeeTotal := total
    vaultBalances := vb
    yieldBalances := yb
    guardiansFee := gf }, fees)

/-- `setGuardian(newGuardian)` (source lines 611-633): validate the
address, settle the outgoing guardian's fees with the **non-guaranteed**
fee index (`lockGuardianFees(false)`), initialize the incoming guardian's
ledger when absent, and switch the role. -/
def setGuardian (cfg : Cfg) (env : Env) (st : VaultState)
    (newGuardian : Nat) : Except VErr VaultState := do
  if newGuardian = 0 then throw .guardianIsZeroAddress
  if newGuardian = cfg.owner then throw .guardianIsOwner
  let st ← if st.initialized && !st.finalized then
              lockGuardianFees cfg env st false
           else pure st
  let gf := if (feeOf st.guardiansFee newGuardian).length = 0 then
              setLedger st.guardiansFee newGuardian
                (List.replicate cfg.numTokens 0)
            else st.guardiansFee
  return { st with guardiansFee := gf, guardian := newGuardian }

/-- `finalize()` (source lines 593-608 and `returnFunds`, lines
1633-1649): mark finalized, settle fees with the **guaranteed** fee index
(`lockGuardianFees(true)`), disable trading, pull all pool holdings into
the vault and return every balance net of the outstanding-fee vector to
the owner. -/
def finalize (cfg : Cfg) (env : Env) (st : VaultState) :
    Except VErr (VaultState × List Nat) := do
  if !st.initialized then throw .vaultNotInitialized
  if st.finalized then throw .vaultIsFinalized
  let st := { st with finalized := true }
  let st ← lockGuardianFees cfg env st true
  let st := { st with swapEnabled := false }
  let st ← withdrawFromPool st st.poolHoldings
  let poolAmounts ← subLists st.vaultBalances
    (st.guardiansFeeTotal.take cfg.numPoolTokens)
  let yieldAmounts ← subLists st.yieldBalances
    (st.guardiansFeeTotal.drop cfg.numPoolTokens)
  let st := { st with
    vaultBalances := st.guardiansFeeTotal.take cfg.numPoolTokens,
    yieldBalances := st.guardiansFeeTotal.drop cfg.numPoolTokens }
  return (st, poolAmounts ++ yieldAmounts)

/-- `depositUnderlyingAsset(yieldToken, underlyingAsset, amount,
oraclePrice, underlyingIndex)` (source lines 2254-2293), acting on one
yield position `yb` (share balance) and the vault's underlying balances
`vb`.  Returns the new position, the new balances and the deposited
amount.  Below the dust threshold, or when the wrapper's `maxDeposit`
reverts (the only call inside the `try`) or reports 0, nothing happens and
0 is returned; otherwise `min(amount, maxDeposit)` is deposited, and a
revert of the wrapper's `deposit` itself is NOT absorbed. -/
def depositUnderlyingAsset (cfg : Cfg) (w : Wrapper) (yb : Nat)
    (vb : List Nat) (amount oraclePrice underlyingIndex : Nat) :
    Except VErr (Nat × List Nat × Nat) := do
  if underlyingIndex = cfg.numeraireAssetIndex then
    if amount < cfg.minYieldActionThreshold then return (yb, vb, 0)
  else
    if amount * oraclePrice / ONE < cfg.minYieldActionThreshold then
      return (yb, vb, 0)
  match w.maxDeposit with
  | none => return (yb, vb, 0)
  | some maxDepositAmount =>
    if maxDepositAmount = 0 then return (yb, vb, 0)
    let depositAmount := min amount maxDepositAmount
    match w.depositCall depositAmount with
    | none => throw .externalRevert
    | some shares => do
      let vb' ← subAt vb underlyingIndex depositAmount
      return (yb + shares, vb', depositAmount)

/-- `withdrawUnderlyingAsset(yieldToken, underlyingAsset, amount,
oraclePrice, underlyingIndex)` (source lines 2338-2377), same shape as
`depositUnderlyingAsset`: dust threshold and absorbed
`maxWithdraw` failure/zero produce a 0-result no-op; otherwise the wrapper
withdraws `min(amount, maxWithdraw)` and the measured underlying balance
delta is returned. -/
def withdrawUnderlyingAsset (cfg : Cfg) (w : Wrapper) (yb : Nat)
    (vb : List Nat) (amount oraclePrice underlyingIndex : Nat) :
    Except VErr (Nat × List Nat × Nat) := do
  if underlyingIndex = cfg.numeraireAssetIndex then
    if amount < cfg.minYieldActionThreshold then return (yb, vb, 0)
  else
    if amount * oraclePrice / ONE < cfg.minYieldActionThreshold then
      return (yb, vb, 0)
  match w.maxWithdraw with
  | none => return (yb, vb, 0)
  | some maxWithdrawalAmount =>
    if maxWithdrawalAmount = 0 then return (yb, vb, 0)
    match w.withdrawCall (min amount maxWithdrawalAmount) with
    | none => throw .externalRevert
    | some (assetsOut, sharesBurned) => do
      let yb' ← nsub yb sharesBurned
      let vb' ← addAt vb underlyingIndex assetsOut
      return (yb', vb', assetsOut)

/-- Transfer loop of `depositTokens` (source lines 1214-1236) plus
`depositToPool`: pull `amounts` from the owner (pool slots land in the
vault's balances and are immediately pushed into the pool, yield slots
stay as yield-token balances).  With standard tokens the deposited amounts
equal the requested amounts. -/
def depositTokens (cfg : Cfg) (st : VaultState) (amounts : List Nat) :
    Except VErr (VaultState × List Nat) := do
  let aPool := amounts.take cfg.numPoolTokens
  let aYield := amounts.drop cfg.numPoolTokens
  let vb ← addLists st.vaultBalances aPool
  let yb ← addLists st.yieldBalances aYield
  let st := { st with vaultBalances := vb, yieldBalances := yb }
  let st ← depositToPool st aPool
  return (st, amounts)

/-- `getValuesFromTokenWithValues` length gate (source lines 1459-1497);
the token-address agreement checks hold by construction in the model,
which keeps vectors in canonical slot order. -/
def validateLen (cfg : Cfg) (vals : List Nat) : Except VErr (List Nat) :=
  if vals.length = cfg.numTokens then .ok vals
  else .error .valueLengthIsNotSame

/-- ORACLE branch of the weight recomputation in
`depositTokensAndUpdateWeights` (source lines 1172-1188), walking the pool
slots with their index: non-numeraire weights become
`newHolding * price / numeraireHolding`, slots with a positive requested
amount report the measured balance delta, and the weight sum accumulates.
The numeraire weight was pre-set to `ONE` by the caller. -/
def depositOracleLoop (numeraireAssetIndex numeraireHolding : Nat)
    (prices oldHoldings amounts : List Nat) :
    Nat → List Nat → List Nat → List Nat →
    Except VErr (List Nat × List Nat × Nat)
  | _, [], [], [] => .ok ([], [], 0)
  | i, w :: ws, nh :: nhs, b :: bs => do
    let w' ← if i = numeraireAssetIndex then pure w
             else do
               let p ← nget prices i
               let nmh ← ndiv (nh * p) numeraireHolding
               pure nmh
    let a ← nget amounts i
    let b' ← if 0 < a then do
               let oh ← nget oldHoldings i
               nsub nh oh
             else pure b
    let (ws', bs', s) ← depositOracleLoop numeraireAssetIndex
      numeraireHolding prices oldHoldings amounts (i + 1) ws nhs bs
    return (w' :: ws', b' :: bs', w' + s)
  | _, _, _, _ => .error .arithPanic

/-- SPOT branch of the weight recomputation in
`depositTokensAndUpdateWeights` (source lines 1190-1199): slots with a
positive requested amount scale their weight by
`newHolding / oldHolding` and report the measured delta. -/
def depositSpotLoop (oldHoldings amounts : List Nat) :
    Nat → List Nat → List Nat → List Nat →
    Except VErr (List Nat × List Nat × Nat)
  | _, [], [], [] => .ok ([], [], 0)
  | i, w :: ws, nh :: nhs, b :: bs => do
    let a ← nget amounts i
    let (w', b') ←
      if 0 < a then do
        let oh ← nget oldHoldings i
        let w' ← ndiv (w * nh) oh
        let b' ← nsub nh oh
        pure (w', b')
      else pure (w, b)
    let (ws', bs', s) ← depositSpotLoop oldHoldings amounts (i + 1) ws nhs bs
    return (w' :: ws', b' :: bs', w' + s)
  | _, _, _, _ => .error .arithPanic

/-- `depositTokensAndUpdateWeights(tokenWithAmount, priceType)` (source
lines 1146-1208): lock fees (non-guaranteed), resolve prices when the
caller asked for DETERMINED, pull the tokens in, deposit pool tokens into
the pool, recompute and instantaneously reset the pool weights, and
compute the `Deposit` event payload (whose `getNormalizedWeights()` read
must itself succeed).  Returns the state, the actually-deposited amounts
and the event's weight vector. -/
def depositTokensAndUpdateWeights (cfg : Cfg) (env : Env) (st : VaultState)
    (requested : List Nat) (priceType : PriceType) :
    Except VErr (VaultState × List Nat × List Nat) := do
  let st ← lockGuardianFees cfg env st false
  let poolHoldings := st.poolHoldings
  let weights := st.poolWeights
  let amounts ← validateLen cfg requested
  let (determinedPrices, priceType) ←
    if priceType = PriceType.determined then getDeterminedPrices cfg env st amounts
    else pure ([], priceType)
  let (st, newBalances) ← depositTokens cfg st amounts
  let poolNewHoldings := st.poolHoldings
  let (weights', newBalances', weightSum) ←
    if priceType = PriceType.oracle then do
      let nmh ← nget poolNewHoldings cfg.numeraireAssetIndex
      if cfg.numeraireAssetIndex < weights.length then
        depositOracleLoop cfg.numeraireAssetIndex nmh determinedPrices
          poolHoldings amounts 0 (weights.set cfg.numeraireAssetIndex ONE)
          poolNewHoldings (newBalances.take cfg.numPoolTokens)
      else throw .arithPanic
    else
      depositSpotLoop poolHoldings amounts 0 weights poolNewHoldings
        (newBalances.take cfg.numPoolTokens)
  let st ← updatePoolWeights st weights' weightSum
  let eventWeights ← getNormalizedWeights cfg env st
  return (st, newBalances' ++ newBalances.drop cfg.numPoolTokens,
    eventWeights)

/-- Pool-slot part of `checkWithdrawAmount` (source lines 2504-2512). -/
def checkWithdrawAmountPool : Nat → List Nat → List Nat → Except VErr Unit
  | _, [], [] => .ok ()
  | i, h :: hs, a :: as =>
    if h < a then .error (.amountExceedAvailable i)
    else checkWithdrawAmountPool (i + 1) hs as
  | _, _, _ => .error .arithPanic

/-- Yield-slot part of `checkWithdrawAmount` (source lines 2514-2536):
for withdrawable slots the holding itself is available; otherwise
`min(convertToAssets(holding), maxWithdraw())` — and this `maxWithdraw`
call is NOT inside a try, so its revert aborts the withdrawal. -/
def checkWithdrawAmountYield :
    Nat → List YieldTokenCfg → List Wrapper → List Nat → List Nat →
    Except VErr Unit
  | _, [], [], [], [] => .ok ()
  | i, yc :: ycs, w :: ws, h :: hs, a :: as => do
    let avail ←
      if yc.withdrawable then pure h
      else
        match w.maxWithdraw with
        | none => throw .externalRevert
        | some m => pure (min (w.convertToAssets h) m)
    if avail < a then throw (.amountExceedAvailable i)
    checkWithdrawAmountYield (i + 1) ycs ws hs as
  | _, _, _, _, _ => .error .arithPanic

/-- `checkWithdrawAmount` (source lines 2497-2537). -/
def checkWithdrawAmount (cfg : Cfg) (env : Env) (holdings amounts : List Nat) :
    Except VErr Unit := do
  checkWithdrawAmountPool 0 (holdings.take cfg.numPoolTokens)
    (amounts.take cfg.numPoolTokens)
  if env.wrappers.length ≠ cfg.yieldTokens.length then throw .arithPanic
  checkWithdrawAmountYield cfg.numPoolTokens cfg.yieldTokens env.wrappers
    (holdings.drop cfg.numPoolTokens) (amounts.drop cfg.numPoolTokens)

/-- Pool-slot loop of `withdrawTokens` (source lines 1296-1309): slots
with a positive requested amount rescale their weight by
`(holding - amount) / holding`; the weight sum accumulates over all
slots. -/
def withdrawPoolWeightLoop :
    List Nat → List Nat → List Nat → Except VErr (List Nat × Nat)
  | [], [], [] => .ok ([], 0)
  | w :: ws, h :: hs, a :: as => do
    let w' ← if 0 < a then do
               let d ← nsub h a
               ndiv (w * d) h
             else pure w
    let (ws', s) ← withdrawPoolWeightLoop ws hs as
    return (w' :: ws', w' + s)
  | _, _, _ => .error .arithPanic

/-- Yield-slot loop of `withdrawTokens` (source lines 1316-1335), walking
the yield positions in slot order while threading the vault's underlying
balances `vb`.  A withdrawable slot transfers the yield tokens themselves
to the owner; a non-withdrawable slot redeems the requested underlying via
`withdrawUnderlyingAsset` and forwards the measured proceeds to the owner.
Returns the new yield balances, the new vault balances and the per-slot
amounts for the `Withdraw` event. -/
def withdrawTokensYieldLoop (cfg : Cfg) (oraclePrices : List Nat) :
    List Nat → List YieldTokenCfg → List Wrapper → List Nat → List Nat →
    Except VErr (List Nat × List Nat × List Nat)
  | [], [], [], [], vb => .ok ([], vb, [])
  | a :: as, yc :: ycs, w :: ws, yb :: ybs, vb => do
    if 0 < a then
      if yc.withdrawable then do
        let yb' ← nsub yb a
        let (ybs', vb', outs) ← withdrawTokensYieldLoop cfg oraclePrices as
          ycs ws ybs vb
        return (yb' :: ybs', vb', a :: outs)
      else do
        let p ← nget oraclePrices yc.underlyingIndex
        let (yb', vb1, got) ← withdrawUnderlyingAsset cfg w yb vb a p
          yc.underlyingIndex
        let vb2 ← subAt vb1 yc.underlyingIndex got
        let (ybs', vb', outs) ← withdrawTokensYieldLoop cfg oraclePrices as
          ycs ws ybs vb2
        return (yb' :: ybs', vb', got :: outs)
    else do
      let (ybs', vb', outs) ← withdrawTokensYieldLoop cfg oraclePrices as
        ycs ws ybs vb
      return (yb :: ybs', vb', 0 :: outs)
  | _, _, _, _, _ => .error .arithPanic

/-- `withdrawTokens(tokenWithAmount)` (source lines 1255-1343): lock fees
(non-guaranteed), bound the request by `checkWithdrawAmount`, read and
staleness-check the oracles, pull the pool amounts out of the pool and
forward them to the owner while rescaling weights, settle the yield slots,
instantaneously reset the pool weights, and compute the `Withdraw` event
payload. -/
def withdrawTokens (cfg : Cfg) (env : Env) (st : VaultState)
    (requested : List Nat) :
    Except VErr (VaultState × List Nat × List Nat) := do
  let st ← lockGuardianFees cfg env st false
  let holdings ← getHoldings cfg st
  let weights := st.poolWeights
  let amounts ← validateLen cfg requested
  checkWithdrawAmount cfg env holdings amounts
  let (oraclePrices, updatedAt) ← getOraclePrices cfg env
  checkOracleStatus st.oraclesEnabled cfg.numeraireAssetIndex env.now
    cfg.maxOracleDelay updatedAt
  let aPool := amounts.take cfg.numPoolTokens
  let st ← withdrawFromPool st aPool
  let vb1 ← subLists st.vaultBalances aPool
  let (weights', weightSum) ← withdrawPoolWeightLoop weights
    (holdings.take cfg.numPoolTokens) aPool
  let (yb', vb2, yieldOuts) ← withdrawTokensYieldLoop cfg oraclePrices
    (amounts.drop cfg.numPoolTokens) cfg.yieldTokens env.wrappers
    st.yieldBalances vb1
  let st := { st with vaultBalances := vb2, yieldBalances := yb' }
  let st ← updatePoolWeights st weights' weightSum
  let eventWeights ← getNormalizedWeights cfg env st
  return (st, aPool ++ yieldOuts, eventWeights)

/-- `checkWeights(weights)` (source lines 2590-2600): the submitted vector
must sum to exactly `ONE`. -/
def checkWeights (weights : List Nat) : Except VErr Unit :=
  if weights.sum = ONE then .ok () else .error .sumOfWeightIsNotOne

/-- Loop of `calcAdjustmentAmounts` (source lines 2092-2106) over the
yield slots `(cfg, underlyingBalance, targetWeight)`.  Faithful to the
source's quirk: the local `targetBalance` is only recomputed when the
slot's target weight is positive, so a zero-target slot reuses the
previous slot's target balance (initially 0). -/
def calcAdjustmentAmountsAux (oraclePrices : List Nat) (value : Nat) :
    Nat → List (YieldTokenCfg × Nat × Nat) →
    Except VErr (List Nat × List Nat)
  | _, [] => .ok ([], [])
  | targetBalance, (yc, ub, tw) :: rest => do
    let targetBalance ←
      if 0 < tw then do
        let p ← nget oraclePrices yc.underlyingIndex
        ndiv (value * tw) p
      else pure targetBalance
    let (ds, ws) ← calcAdjustmentAmountsAux oraclePrices value targetBalance
      rest
    if ub < targetBalance then return ((targetBalance - ub) :: ds, 0 :: ws)
    else return (0 :: ds, (ub - targetBalance) :: ws)

/-- `calcAdjustmentAmounts` (source lines 2066-2107): per-yield-slot
deposit/withdraw deltas toward `totalValue * targetWeight / oraclePrice`
of underlying. -/
def calcAdjustmentAmounts (cfg : Cfg)
    (poolHoldings underlyingBalances targetWeights oraclePrices : List Nat) :
    Except VErr (List Nat × List Nat) := do
  let utb ← getUnderlyingTotalBalances cfg poolHoldings underlyingBalances
  let value ← getValue cfg.numeraireAssetIndex utb oraclePrices
  let tws := targetWeights.drop cfg.numPoolTokens
  if tws.length ≠ cfg.yieldTokens.length then throw .arithPanic
  if underlyingBalances.length ≠ cfg.yieldTokens.length then
    throw .arithPanic
  calcAdjustmentAmountsAux oraclePrices value 0
    (cfg.yieldTokens.zip (underlyingBalances.zip tws))

/-- Loop of `withdrawFromYieldTokens` (source lines 2303-2327): for each
yield slot with a positive withdrawal delta, redeem underlying through
`withdrawUnderlyingAsset` and accumulate the proceeds per underlying pool
slot.  Threads the yield balances, the vault balances and the
`amounts` accumulator (length `numPoolTokens`). -/
def withdrawFromYieldTokensAux (cfg : Cfg) (oraclePrices : List Nat) :
    List Nat → List YieldTokenCfg → List Wrapper → List Nat → List Nat →
    List Nat → Except VErr (List Nat × List Nat × List Nat)
  | [], [], [], [], vb, acc => .ok ([], vb, acc)
  | wa :: was, yc :: ycs, w :: ws, yb :: ybs, vb, acc => do
    if 0 < wa then do
      let p ← nget oraclePrices yc.underlyingIndex
      let (yb', vb1, got) ← withdrawUnderlyingAsset cfg w yb vb wa p
        yc.underlyingIndex
      let acc1 ← addAt acc yc.underlyingIndex got
      let (ybs', vb', acc') ← withdrawFromYieldTokensAux cfg oraclePrices was
        ycs ws ybs vb1 acc1
      return (yb' :: ybs', vb', acc')
    else do
      let (ybs', vb', acc') ← withdrawFromYieldTokensAux cfg oraclePrices was
        ycs ws ybs vb acc
      return (yb :: ybs', vb', acc')
  | _, _, _, _, _, _ => .error .arithPanic

/-- `availableHoldings[i] = poolHoldings[i] * (poolWeights[i] - MIN_WEIGHT)
/ poolWeights[i]` (source lines 2125-2129); checked, so a pool weight below
`MIN_WEIGHT` or zero panics. -/
def availableHoldingsLoop : List Nat → List Nat → Except VErr (List Nat)
  | [], [] => .ok []
  | h :: hs, w :: ws => do
    let d ← nsub w MIN_WEIGHT
    let a ← ndiv (h * d) w
    let rest ← availableHoldingsLoop hs ws
    return a :: rest
  | _, _ => .error .arithPanic

/-- Accumulate `necessaryAmounts[underlyingIndex] += depositAmount` over
the yield slots (source lines 2133-2137). -/
def necessaryBaseLoop :
    List Nat → List (YieldTokenCfg × Nat) → Except VErr (List Nat)
  | acc, [] => .ok acc
  | acc, (yc, d) :: rest => do
    let acc' ← if 0 < d then addAt acc yc.underlyingIndex d else pure acc
    necessaryBaseLoop acc' rest

/-- Final capping of `calcNecessaryAmounts` (source lines 2138-2148). -/
def necessaryCapLoop : List Nat → List Nat → List Nat →
    Except VErr (List Nat)
  | [], [], [] => .ok []
  | n :: ns, av :: avs, b :: bs => do
    let n' := if n ≤ b then 0
              else if av + b < n then av
              else n - b
    let rest ← necessaryCapLoop ns avs bs
    return n' :: rest
  | _, _, _ => .error .arithPanic

/-- `calcNecessaryAmounts` (source lines 2116-2149): cap the pool
withdrawal per slot so the residual pool weight stays above `MIN_WEIGHT`,
after netting each yield deposit requirement against the already-idle
balance. -/
def calcNecessaryAmounts (cfg : Cfg)
    (poolHoldings poolWeights depositAmounts balances : List Nat) :
    Except VErr (List Nat) := do
  let avail ← availableHoldingsLoop poolHoldings poolWeights
  if cfg.yieldTokens.length ≠ depositAmounts.length then throw .arithPanic
  let base ← necessaryBaseLoop (List.replicate cfg.numPoolTokens 0)
    (cfg.yieldTokens.zip depositAmounts)
  necessaryCapLoop base avail balances

/-- `withdrawNecessaryTokensFromPool` (source lines 2157-2185): pull the
capped amounts out of the pool and add the measured deltas onto the
idle-balance accumulator. -/
def withdrawNecessaryTokensFromPool (st : VaultState)
    (balances necessaryAmounts : List Nat) :
    Except VErr (VaultState × List Nat) := do
  let st ← withdrawFromPool st necessaryAmounts
  let balances' ← addLists balances necessaryAmounts
  return (st, balances')

/-- Yield-deposit loop of `depositToYieldTokens` (source lines 2220-2236),
faithful to the source's indexing: the guard reads
`balances[underlyingIndex]` but the amount is
`min(depositAmounts[i], balances[i])` with `i` the yield counter, and the
deposited amount is then subtracted at `underlyingIndex`. -/
def depositYieldLoop (cfg : Cfg) (oraclePrices : List Nat) :
    Nat → List Nat → List Wrapper → List YieldTokenCfg → List Nat →
    List Nat → List Nat → Except VErr (List Nat × List Nat × List Nat)
  | _, [], [], [], ybAll, vb, balances => .ok (ybAll, vb, balances)
  | i, d :: ds, w :: ws, yc :: ycs, ybAll, vb, balances => do
    let bu ← nget balances yc.underlyingIndex
    if 0 < d && 0 < bu then do
      let bi ← nget balances i
      let yb ← nget ybAll i
      let p ← nget oraclePrices yc.underlyingIndex
      let (yb', vb', dep) ← depositUnderlyingAsset cfg w yb vb
        (min d bi) p yc.underlyingIndex
      let balances' ← subAt balances yc.underlyingIndex dep
      let ybAll' := ybAll.set i yb'
      depositYieldLoop cfg oraclePrices (i + 1) ds ws ycs ybAll' vb' balances'
    else
      depositYieldLoop cfg oraclePrices (i + 1) ds ws ycs ybAll vb balances
  | _, _, _, _, _, _, _ => .error .arithPanic

/-- `depositToYieldTokens` (source lines 2198-2243): size and execute the
pool withdrawal needed to fund the yield deposits, run the per-slot
deposits, and push every residual balance back into the pool.  The local
`balances` array (the source's idle-balance bookkeeping) is threaded
separately from the vault's actual ERC20 balances. -/
def depositToYieldTokens (cfg : Cfg) (env : Env) (st : VaultState)
    (poolHoldings depositAmounts balances oraclePrices : List Nat) :
    Except VErr VaultState := do
  let necessaryAmounts ← calcNecessaryAmounts cfg poolHoldings
    st.poolWeights depositAmounts balances
  let (st, balances) ← withdrawNecessaryTokensFromPool st balances
    necessaryAmounts
  let (yb', vb', balances) ← depositYieldLoop cfg oraclePrices 0
    depositAmounts env.wrappers cfg.yieldTokens st.yieldBalances
    st.vaultBalances balances
  let st := { st with yieldBalances := yb', vaultBalances := vb' }
  depositToPool st balances

/-- `adjustYieldTokens` (source lines 1847-1891): read the net underlying
balances, read and staleness-check the oracles (yield sizing must not use
spot prices), compute the per-slot adjustment deltas, execute the
withdrawals, then fund and execute the deposits. -/
def adjustYieldTokens (cfg : Cfg) (env : Env) (st : VaultState)
    (poolHoldings targetWeights : List Nat) : Except VErr VaultState := do
  let underlyingBalances ← getUnderlyingBalances cfg env st
  let (oraclePrices, updatedAt) ← getOraclePrices cfg env
  checkOracleStatus st.oraclesEnabled cfg.numeraireAssetIndex env.now
    cfg.maxOracleDelay updatedAt
  let (depositAmounts, withdrawAmounts) ← calcAdjustmentAmounts cfg
    poolHoldings underlyingBalances targetWeights oraclePrices
  if env.wrappers.length ≠ cfg.yieldTokens.length then throw .arithPanic
  let (yb', vb', balances) ← withdrawFromYieldTokensAux cfg oraclePrices
    withdrawAmounts cfg.yieldTokens env.wrappers st.yieldBalances
    st.vaultBalances (List.replicate cfg.numPoolTokens 0)
  let st := { st with yieldBalances := yb', vaultBalances := vb' }
  depositToYieldTokens cfg env st poolHoldings depositAmounts balances
    oraclePrices

/-- Accumulation loop of `getUnderlyingTotalWeights`. -/
def underlyingTotalWeightsAux :
    List Nat → List (YieldTokenCfg × Nat) → Except VErr (List Nat)
  | acc, [] => .ok acc
  | acc, (yc, w) :: rest => do
    let acc' ← addAt acc yc.underlyingIndex w
    underlyingTotalWeightsAux acc' rest

/-- `getUnderlyingTotalWeights` (source lines 1942-1958): pool-slot target
weights inclusive of the yield-token weights mapped onto their underlying
slots. -/
def getUnderlyingTotalWeights (cfg : Cfg) (weights : List Nat) :
    Except VErr (List Nat) := do
  let base := (weights.take cfg.numPoolTokens)
  if base.length ≠ cfg.numPoolTokens then throw .arithPanic
  let yws := weights.drop cfg.numPoolTokens
  if yws.length ≠ cfg.yieldTokens.length then throw .arithPanic
  underlyingTotalWeightsAux base (cfg.yieldTokens.zip yws)

/-- Subtraction loop of `adjustPoolWeights` (source lines 1913-1917):
`targetPoolWeights[underlyingIndex] -= currentWeights[yieldSlot]`. -/
def subYieldCurrentLoop :
    List Nat → List (YieldTokenCfg × Nat) → Except VErr (List Nat)
  | acc, [] => .ok acc
  | acc, (yc, cw) :: rest => do
    let acc' ← subAt acc yc.underlyingIndex cw
    subYieldCurrentLoop acc' rest

/-- Rescaling loop of `adjustPoolWeights` (source lines 1919-1927):
`newPoolWeights[i] = poolWeights[i] * currentPoolHoldings[i] /
poolHoldings[i]`, accumulating both the new-weight sum and the target
sum. -/
def rescaleLoop : List Nat → List Nat → List Nat → List Nat →
    Except VErr (List Nat × Nat × Nat)
  | [], [], [], [] => .ok ([], 0, 0)
  | w :: ws, ch :: chs, oh :: ohs, t :: ts => do
    let w' ← ndiv (w * ch) oh
    let (ws', s, ts') ← rescaleLoop ws chs ohs ts
    return (w' :: ws', w' + s, t + ts')
  | _, _, _, _ => .error .arithPanic

/-- `adjustPoolWeights` (source lines 1899-1935): compute the pool-only
target weights net of the now-realized yield weights, proportionally
rescale the pool's current weights to the just-changed balances (an
instantaneous update), and normalize the targets. -/
def adjustPoolWeights (cfg : Cfg) (env : Env) (st : VaultState)
    (poolHoldings targetWeights : List Nat) :
    Except VErr (VaultState × List Nat) := do
  let tpw ← getUnderlyingTotalWeights cfg targetWeights
  let currentPoolHoldings := st.poolHoldings
  let poolWeights := st.poolWeights
  let currentWeights ← getNormalizedWeights cfg env st
  let cyw := currentWeights.drop cfg.numPoolTokens
  if cyw.length ≠ cfg.yieldTokens.length then throw .arithPanic
  let tpw ← subYieldCurrentLoop tpw (cfg.yieldTokens.zip cyw)
  let (npw, weightSum, targetWeightSum) ← rescaleLoop poolWeights
    currentPoolHoldings (poolHoldings.take cfg.numPoolTokens) tpw
  let st ← updatePoolWeights st npw weightSum
  let tpw ← normalizeWeights tpw targetWeightSum
  return (st, tpw)

/-- Index-carrying loop of `checkWeightChangeRatio` (source lines
2474-2487). -/
def checkWeightChangeRatiosAux (maximum : Nat) :
    Nat → List Nat → List Nat → Except VErr Unit
  | _, [], [] => .ok ()
  | i, w :: ws, t :: ts => do
    let cr ← weightChangeRatioOf w t
    if maximum < cr then
      .error (.weightChangeRatioIsAboveMax i cr maximum)
    else checkWeightChangeRatiosAux maximum (i + 1) ws ts
  | _, _, _ => .error .arithPanic

/-- `checkWeightChangeRatio(poolTokens, targetPoolWeights, startTime,
endTime)` (source lines 2462-2488): every per-token change ratio must stay
within `MAX_WEIGHT_CHANGE_RATIO * (endTime - startTime)`. -/
def checkWeightChangeRatios (currentPoolWeights targetPoolWeights : List Nat)
    (startTime endTime : Nat) : Except VErr Unit := do
  let duration ← nsub endTime startTime
  checkWeightChangeRatiosAux (MAX_WEIGHT_CHANGE_RATE * duration) 0
    currentPoolWeights targetPoolWeights

/-- `updateWeightsGradually(tokenWithWeight, startTime, endTime)` (source
lines 805-884): lifecycle guards, the timestamp validation (uint32 bounds,
clamp of `startTime` to `now`, end-before-start, minimum duration), weight
validation (length and exact sum `ONE`), the yield adjustment, the pool
weight adjustment, the rate-limit check, and finally the gradual weight
schedule handed to the pool. -/
def updateWeightsGradually (cfg : Cfg) (env : Env) (st : VaultState)
    (requestedWeights : List Nat) (startTime endTime : Nat) :
    Except VErr VaultState := do
  if !st.initialized then throw .vaultNotInitialized
  if st.finalized then throw .vaultIsFinalized
  if UINT32_MAX < startTime then throw .weightChangeStartTimeIsAboveMax
  if UINT32_MAX < endTime then throw .weightChangeEndTimeIsAboveMax
  let startTime := max env.now startTime
  if endTime < startTime then throw .weightChangeEndBeforeStart
  if endTime < startTime + MINIMUM_WEIGHT_CHANGE_DURATION then
    throw .weightChangeDurationIsBelowMin
  let poolHoldings := st.poolHoldings
  let targetWeights ← validateLen cfg requestedWeights
  checkWeights targetWeights
  let st ← adjustYieldTokens cfg env st poolHoldings targetWeights
  let (st, targetPoolWeights) ← adjustPoolWeights cfg env st poolHoldings
    targetWeights
  checkWeightChangeRatios st.poolWeights targetPoolWeights startTime endTime
  return { st with weightSchedule := some (startTime, endTime,
    targetPoolWeights) }

/-- Non-numeraire weight loop of `enableTradingWithOraclePrice` (source
lines 723-732). -/
def oracleEnableLoop (numeraireAssetIndex numeraireHolding : Nat)
    (prices : List Nat) : Nat → List Nat → Except VErr (List Nat × Nat)
  | _, [] => .ok ([], 0)
  | i, h :: hs => do
    let (w, s0) ←
      if i = numeraireAssetIndex then pure (ONE, 0)
      else do
        let hr ← ndiv (h * ONE) numeraireHolding
        let p ← nget prices i
        let w ← ndiv (hr * ONE) p
        pure (w, w)
    let (ws, s) ← oracleEnableLoop numeraireAssetIndex numeraireHolding
      prices (i + 1) hs
    return (w :: ws, s0 + s)

/-- `enableTradingWithOraclePrice()` (source lines 702-738): read the
oracles, run the staleness gate, derive the pool weights from holdings and
oracle prices, update the pool weights instantly and enable swaps. -/
def enableTradingWithOraclePrice (cfg : Cfg) (env : Env) (st : VaultState) :
    Except VErr (VaultState × List Nat) := do
  if !st.initialized then throw .vaultNotInitialized
  let (prices, updatedAt) ← getOraclePrices cfg env
  checkOracleStatus st.oraclesEnabled cfg.numeraireAssetIndex env.now
    cfg.maxOracleDelay updatedAt
  let nh ← nget st.poolHoldings cfg.numeraireAssetIndex
  let (weights, others) ← oracleEnableLoop cfg.numeraireAssetIndex nh
    prices 0 st.poolHoldings
  let st ← updatePoolWeights st weights (ONE + others)
  let st := { st with swapEnabled := true }
  return (st, prices)

/-- EVM transaction semantics: a reverting call leaves the state
unchanged. -/
def applyOp (st : VaultState) (r : Except VErr VaultState) : VaultState :=
  match r with
  | .ok st' => st'
  | .error _ => st

/-! ### Concrete fixtures used by counterexamples and witnesses -/

/-- A one-pool-token vault (numeraire slot only, no yield tokens) with the
maximum management fee `10^9` and `minFeeDuration = 1000s`, created at
time 0. -/
def feeCfg : Cfg :=
  { numPoolTokens := 1, numeraireAssetIndex := 0, yieldTokens := [],
    owner := 9, minYieldActionThreshold := 1, minReliableVaultValue := 1,
    minSignificantDepositValue := 1, maxOracleSpotDivergence := ONE,
    maxOracleDelay := 1000, managementFee := 10 ^ 9, minFeeDuration := 1000,
    createdAt := 0 }

/-- The world at `createdAt + 500s` for `feeCfg`. -/
def feeEnv : Env :=
  { now := 500, oracleFeeds := [(1, 0)], oracleUnits := [ONE],
    wrappers := [], swapFee := 0 }

/-- An initialized vault state for `feeCfg` holding `10^18` of the single
pool token, guardian 1, fee checkpoint at creation. -/
def feeSt : VaultState :=
  { poolHoldings := [10 ^ 18], vaultBalances := [0], yieldBalances := [],
    poolWeights := [ONE], guardiansFee := [(1, [0])],
    guardiansFeeTotal := [0], guardian := 1, lastFeeCheckpoint := 0,
    initialized := true, finalized := false, oraclesEnabled := true,
    swapEnabled := true, weightSchedule := none }

/-- A two-pool-token vault (numeraire at slot 0, no yield tokens) with
`maxOracleDelay = 500`. -/
def twoTokenCfg : Cfg :=
  { numPoolTokens := 2, numeraireAssetIndex := 0, yieldTokens := [],
    owner := 9, minYieldActionThreshold := 1, minReliableVaultValue := 1,
    minSignificantDepositValue := 1, maxOracleSpotDivergence := 3 * ONE,
    maxOracleDelay := 500, managementFee := 0, minFeeDuration := 1000,
    createdAt := 0 }

/-- A world at time 2000 where the non-numeraire feed reports a valid
price but was last updated at 700 — stale beyond `maxOracleDelay = 500`. -/
def staleEnv : Env :=
  { now := 2000, oracleFeeds := [(1, 0), (Int.ofNat ONE, 700)],
    oracleUnits := [ONE, ONE], wrappers := [], swapFee := 0 }

/-- A balanced initialized state for `twoTokenCfg`. -/
def twoTokenSt : VaultState :=
  { poolHoldings := [1000 * ONE, 1000 * ONE], vaultBalances := [0, 0],
    yieldBalances := [], poolWeights := [5 * 10 ^ 17, 5 * 10 ^ 17],
    guardiansFee := [(1, [0, 0])], guardiansFeeTotal := [0, 0],
    guardian := 1, lastFeeCheckpoint := 0, initialized := true,
    finalized := false, oraclesEnabled := true, swapEnabled := true,
    weightSchedule := none }

/-- A well-behaved ERC4626 wrapper: 1:1 share rate, huge capacity, exact
deposits and withdrawals. -/
def stdWrapper : Wrapper :=
  { convertToAssets := fun a => a, maxDeposit := some (10 ^ 24),
    maxWithdraw := some (10 ^ 24), depositCall := fun a => some a,
    withdrawCall := fun a => some (a, a) }

/-- A broken ERC4626 wrapper whose every external call reverts. -/
def revertingWrapper : Wrapper :=
  { convertToAssets := fun a => a, maxDeposit := none, maxWithdraw := none,
    depositCall := fun _ => none, withdrawCall := fun _ => none }

/-- A vault with one pool token (the numeraire) and one non-withdrawable
yield token wrapping it, with dust threshold 10 and zero management
fee. -/
def yieldCfg : Cfg :=
  { numPoolTokens := 1, numeraireAssetIndex := 0,
    yieldTokens := [{ underlyingIndex := 0, withdrawable := false }],
    owner := 9, minYieldActionThreshold := 10, minReliableVaultValue := 1,
    minSignificantDepositValue := 1, maxOracleSpotDivergence := 3 * ONE,
    maxOracleDelay := 1000, managementFee := 0, minFeeDuration := 1000,
    createdAt := 0 }

/-- World for `yieldCfg`: fresh numeraire-only oracle data and the
well-behaved wrapper. -/
def yieldEnv : Env :=
  { now := 100, oracleFeeds := [(1, 0)], oracleUnits := [ONE],
    wrappers := [stdWrapper], swapFee := 0 }

/-- Initialized state for `yieldCfg`: 1000 numeraire tokens in the pool
and 100 yield-token shares held directly. -/
def yieldSt : VaultState :=
  { poolHoldings := [1000], vaultBalances := [0], yieldBalances := [100],
    poolWeights := [ONE], guardiansFee := [(1, [0, 0])],
    guardiansFeeTotal := [0, 0], guardian := 1, lastFeeCheckpoint := 0,
    initialized := true, finalized := false, oraclesEnabled := true,
    swapEnabled := true, weightSchedule := none }

/-- `yieldCfg` with the yield token marked withdrawable instead. -/
def wdCfg : Cfg :=
  { yieldCfg with
    yieldTokens := [{ underlyingIndex := 0, withdrawable := true }] }

/-- A two-pool-token vault with economically meaningful thresholds:
reliable value 1000, significant deposit 100, divergence cap 2x. -/
def policyCfg : Cfg :=
  { numPoolTokens := 2, numeraireAssetIndex := 0, yieldTokens := [],
    owner := 9, minYieldActionThreshold := 1,
    minReliableVaultValue := 1000, minSignificantDepositValue := 100,
    maxOracleSpotDivergence := 2 * ONE, maxOracleDelay := 500,
    managementFee := 0, minFeeDuration := 1000, createdAt := 0 }

/-- Fresh feeds: the non-numeraire oracle reports `2·ONE`, updated 100s
ago. -/
def policyEnv : Env :=
  { now := 1000, oracleFeeds := [(1, 0), (Int.ofNat (2 * ONE), 900)],
    oracleUnits := [ONE, ONE], wrappers := [], swapFee := 0 }

/-- Fresh feeds whose non-numeraire price `ONE` diverges 3x from the pool
spot price `3·ONE`. -/
def divergeEnv : Env :=
  { now := 1000, oracleFeeds := [(1, 0), (Int.ofNat ONE, 900)],
    oracleUnits := [ONE, ONE], wrappers := [], swapFee := 0 }

/-- Holdings `[3000, 1000]` at equal weights: spot price of token 1 is
`3·ONE`, total spot value 6000. -/
def policySt : VaultState :=
  { poolHoldings := [3000, 1000], vaultBalances := [0, 0],
    yieldBalances := [], poolWeights := [5 * 10 ^ 17, 5 * 10 ^ 17],
    guardiansFee := [(1, [0, 0])], guardiansFeeTotal := [0, 0],
    guardian := 1, lastFeeCheckpoint := 0, initialized := true,
    finalized := false, oraclesEnabled := true, swapEnabled := true,
    weightSchedule := none }

/-- Tiny holdings `[30, 10]` (total spot value 60, below the reliable
minimum 1000). -/
def poorSt : VaultState :=
  { policySt with poolHoldings := [30, 10] }

/-- A world at time 2000 for `twoTokenCfg` where the non-numeraire feed
reports `2·ONE` updated at 1800 — fresh within `maxOracleDelay = 500`. -/
def freshTwoEnv : Env :=
  { now := 2000, oracleFeeds := [(1, 0), (Int.ofNat (2 * ONE), 1800)],
    oracleUnits := [ONE, ONE], wrappers := [], swapFee := 0 }

/-- A `yieldCfg` state where former guardian 5 still holds fees `[3, 4]`
(current guardian is 1). -/
def claimSt : VaultState :=
  { poolHoldings := [1000], vaultBalances := [3], yieldBalances := [10],
    poolWeights := [ONE], guardiansFee := [(5, [3, 4]), (1, [0, 0])],
    guardiansFeeTotal := [3, 4], guardian := 1, lastFeeCheckpoint := 0,
    initialized := true, finalized := false, oraclesEnabled := true,
    swapEnabled := true, weightSchedule := none }

/-- `claimSt` after former guardian 5 claims: fees paid out, aggregate
zeroed, row 5 deleted. -/
def claimStAfter : VaultState :=
  { poolHoldings := [1000], vaultBalances := [0], yieldBalances := [6],
    poolWeights := [ONE], guardiansFee := [(1, [0, 0])],
    guardiansFeeTotal := [0, 0], guardian := 1, lastFeeCheckpoint := 0,
    initialized := true, finalized := false, oraclesEnabled := true,
    swapEnabled := true, weightSchedule := none }

/-- `claimSt` without the row for address 5. -/
def claimStNoRow : VaultState :=
  { claimSt with guardiansFee := [(1, [0, 0])] }

/-! ### General lemmas about the embedding -/

theorem bind_ok {α β : Type} {e : Except VErr α} {k : α → Except VErr β}
    {v : β} : (e >>= k) = .ok v ↔ ∃ a, e = .ok a ∧ k a = .ok v := by
  cases e <;> simp [Bind.bind, Except.bind]

theorem pure_ok {α : Type} {a v : α} :
    (pure a : Except VErr α) = .ok v ↔ a = v := by
  simp [Pure.pure, Except.pure]

theorem throw_bind {α β : Type} {e : VErr} {k : α → Except VErr β} :
    (throw e : Except VErr α) >>= k = .error e := rfl

theorem error_bind {α β : Type} {e : VErr} {k : α → Except VErr β} :
    (Except.error e : Except VErr α) >>= k = .error e := rfl

theorem ok_bind {α β : Type} {a : α} {k : α → Except VErr β} :
    (Except.ok a : Except VErr α) >>= k = k a := rfl

theorem addLists_length {a b rs : List Nat} (h : addLists a b = .ok rs) :
    rs.length = a.length ∧ a.length = b.length := by
  induction a generalizing b rs with
  | nil => cases b <;> simp [addLists] at h <;> simp [← h]
  | cons x xs ih =>
    cases b with
    | nil => simp [addLists] at h
    | cons y ys =>
      simp only [addLists, bind_ok, pure_ok] at h
      obtain ⟨r, hr, hv⟩ := h
      obtain ⟨h1, h2⟩ := ih hr
      simp [← hv, h1, h2]

theorem addLists_get {a b rs : List Nat} (h : addLists a b = .ok rs)
    (i : Nat) (x y : Nat) (hx : a[i]? = some x) (hy : b[i]? = some y) :
    rs[i]? = some (x + y) := by
  induction a generalizing b rs i with
  | nil => simp at hx
  | cons p ps ih =>
    cases b with
    | nil => simp [addLists] at h
    | cons q qs =>
      simp only [addLists, bind_ok, pure_ok] at h
      obtain ⟨r, hr, hv⟩ := h
      cases i with
      | zero =>
        simp at hx hy
        simp [← hv, hx, hy]
      | succ j =>
        simp at hx hy
        simpa [← hv] using ih hr j hx hy

theorem subLists_length {a b rs : List Nat} (h : subLists a b = .ok rs) :
    rs.length = a.length ∧ a.length = b.length := by
  induction a generalizing b rs with
  | nil => cases b <;> simp [subLists] at h <;> simp [← h]
  | cons x xs ih =>
    cases b with
    | nil => simp [subLists] at h
    | cons y ys =>
      simp only [subLists] at h
      split at h
      · simp only [bind_ok, pure_ok] at h
        obtain ⟨r, hr, hv⟩ := h
        obtain ⟨h1, h2⟩ := ih hr
        simp [← hv, h1, h2]
      · simp at h

theorem subLists_of_addLists {a b rs : List Nat}
    (h : addLists a b = .ok rs) : subLists rs b = .ok a := by
  induction a generalizing b rs with
  | nil =>
    cases b with
    | nil =>
      simp [addLists] at h
      subst h
      simp [subLists]
    | cons y ys => simp [addLists] at h
  | cons x xs ih =>
    cases b with
    | nil => simp [addLists] at h
    | cons y ys =>
      simp only [addLists, bind_ok, pure_ok] at h
      obtain ⟨r, hr, hv⟩ := h
      subst hv
      simp [subLists, ih hr]

theorem lockGuardianFees_of_feeZero (cfg : Cfg) (env : Env)
    (st : VaultState) (lock : Bool) (hfee : cfg.managementFee = 0) :
    lockGuardianFees cfg env st lock = .ok st := by
  simp [lockGuardianFees, hfee, Pure.pure, Except.pure]

/-- Division distributes sub-additively over a list sum. -/
theorem list_sum_div_le (l : List Nat) (k c : Nat) :
    (l.map (fun w => w * k / c)).sum ≤ l.sum * k / c := by
  rcases Nat.eq_zero_or_pos c with hc | hc
  · simp [hc]
  induction l with
  | nil => simp
  | cons a as ih =>
    simp only [List.map_cons, List.sum_cons, Nat.add_mul]
    calc a * k / c + (as.map (fun w => w * k / c)).sum
        ≤ a * k / c + as.sum * k / c := Nat.add_le_add_left ih _
      _ ≤ (a * k + as.sum * k) / c := by
          rw [Nat.le_div_iff_mul_le hc, Nat.add_mul]
          exact Nat.add_le_add (Nat.div_mul_le_self _ _)
            (Nat.div_mul_le_self _ _)

theorem normalizeWeights_ok {ws : List Nat} {s : Nat} {v : List Nat}
    (h : normalizeWeights ws s = .ok v) :
    v.sum = ONE ∧ v.length = ws.length ∧
      ∀ i, i ≠ 0 → v[i]? = (ws.map (fun w => w * ONE / s))[i]? := by
  unfold normalizeWeights at h
  split at h
  · simp at h
  · revert h
    generalize hmap : ws.map (fun w => w * ONE / s) = nw
    intro h
    match nw with
    | [] => simp at h
    | w0 :: rest =>
      simp only at h
      split at h
      · rename_i hle
        rw [Except.ok.injEq] at h
        subst h
        refine ⟨by simp [List.sum_cons]; omega, ?_, ?_⟩
        · have := congrArg List.length hmap
          simp at this
          simp [this]
        · intro i hi
          match i with
          | 0 => exact absurd rfl hi
          | j + 1 => simp
      · simp at h

theorem normalizeWeights_cons (a : Nat) (tl : List Nat) (s : Nat)
    (hs : s ≠ 0)
    (hle : a * ONE / s + (tl.map (fun w => w * ONE / s)).sum
      ≤ a * ONE / s + ONE) :
    normalizeWeights (a :: tl) s =
      .ok ((a * ONE / s + ONE -
        (a * ONE / s + (tl.map (fun w => w * ONE / s)).sum)) ::
        tl.map (fun w => w * ONE / s)) := by
  simp [normalizeWeights, hs, hle]

theorem normalizeWeights_total {ws : List Nat} (h0 : ws ≠ [])
    (hs : ws.sum ≠ 0) :
    ∃ v, normalizeWeights ws ws.sum = .ok v ∧ v.sum = ONE := by
  cases ws with
  | nil => exact absurd rfl h0
  | cons a tl =>
    have hsum : a * ONE / (a :: tl).sum +
        (tl.map (fun w => w * ONE / (a :: tl).sum)).sum ≤ ONE := by
      have h1 : ((a :: tl).map (fun w => w * ONE / (a :: tl).sum)).sum
          ≤ (a :: tl).sum * ONE / (a :: tl).sum :=
        list_sum_div_le _ ONE _
      have h2 : (a :: tl).sum * ONE / (a :: tl).sum = ONE :=
        Nat.mul_div_cancel_left ONE (Nat.pos_of_ne_zero hs)
      rw [h2] at h1
      simpa [List.sum_cons] using h1
    generalize hG : (a :: tl).sum = S at hs hsum ⊢
    have hy : (tl.map (fun w => w * ONE / S)).sum ≤ ONE :=
      le_trans (Nat.le_add_left _ _) hsum
    refine ⟨_, normalizeWeights_cons a tl S hs
      (Nat.add_le_add_left hy _), ?_⟩
    have e1 : a * ONE / S + ONE -
        (a * ONE / S + (tl.map (fun w => w * ONE / S)).sum) =
        ONE - (tl.map (fun w => w * ONE / S)).sum := by
      rw [Nat.add_sub_add_left]
    simp only [List.sum_cons, e1]
    exact Nat.sub_add_cancel hy

theorem calcYieldWeights_length {value : Nat} {op : List Nat}
    {ycs : List YieldTokenCfg} {ubs l : List Nat}
    (h : calcYieldWeights value op ycs ubs = .ok l) :
    l.length = ycs.length := by
  induction ycs generalizing ubs l with
  | nil =>
    cases ubs with
    | nil =>
      simp [calcYieldWeights] at h
      simp [← h]
    | cons u us => simp [calcYieldWeights] at h
  | cons yc ycs ih =>
    cases ubs with
    | nil => simp [calcYieldWeights] at h
    | cons u us =>
      simp only [calcYieldWeights, bind_ok, pure_ok] at h
      obtain ⟨p, hp, w, hw, r, hr, hv⟩ := h
      simp [← hv, ih hr]

theorem calcNormalizedWeights_ok {cfg : Cfg} {value : Nat}
    {op ub pw v : List Nat}
    (h : calcNormalizedWeights cfg value op ub pw = .ok v) :
    v.sum = ONE ∧ v.length = cfg.numPoolTokens + cfg.yieldTokens.length := by
  unfold calcNormalizedWeights at h
  simp only [bind_ok, pure_ok] at h
  obtain ⟨yw, hyw, ps, hps, h⟩ := h
  have hlen := calcYieldWeights_length hyw
  split at h
  · simp [Bind.bind, Except.bind, throw, throwThe, MonadExceptOf.throw] at h
  · rename_i hpwlen
    rw [not_ne_iff] at hpwlen
    rw [pure_bind] at h
    split at h
    · simp [throw, throwThe, MonadExceptOf.throw] at h
    · rename_i w0 rest heq
      have hsum_eq : (pw.map (fun w => w * ps / ONE)).sum + yw.sum
          = w0 + rest.sum := by
        have := congrArg List.sum heq
        simpa [List.sum_append, List.sum_cons] using this
      have hlen_eq : pw.length + yw.length = 1 + rest.length := by
        have := congrArg List.length heq
        simp [List.length_append] at this
        omega
      split at h
      · rename_i hbig
        simp only [bind_ok, pure_ok] at h
        obtain ⟨w0', hw0', hv⟩ := h
        unfold nsub at hw0'
        split at hw0'
        · rename_i hle
          rw [Except.ok.injEq] at hw0'
          subst hw0'
          subst hv
          constructor
          · simp only [List.sum_cons]
            omega
          · simp only [List.length_cons]
            omega
        · simp at hw0'
      · rename_i hsmall
        rw [pure_ok] at h
        subst h
        constructor
        · simp only [List.sum_cons]
          omega
        · simp only [List.length_cons]
          omega

theorem getNormalizedWeights_ok {cfg : Cfg} {env : Env} {st : VaultState}
    {v : List Nat} (h : getNormalizedWeights cfg env st = .ok v) :
    v.sum = ONE ∧ v.length = cfg.numPoolTokens + cfg.yieldTokens.length := by
  unfold getNormalizedWeights at h
  simp only [bind_ok] at h
  obtain ⟨⟨op, ua⟩, hop, ub, hub, utb, hutb, value, hval, hcalc⟩ := h
  exact calcNormalizedWeights_ok hcalc

/-! ### Claim theorems -/

/-- C1 (amended): every successful `normalizeWeights` call returns a
vector summing to exactly `ONE` with the per-entry truncated divisions
untouched away from index 0 (the residue is absorbed at index 0); for
every nonempty weights array whose entries do not all vanish,
`normalizeWeights(weights, sum weights)` — `weightSum` is the exact sum at
every call site — succeeds with sum exactly `ONE`; and whenever
`getNormalizedWeights` succeeds, the returned `numTokens`-entry vector
sums to exactly `ONE`. -/
theorem C1_weight_sum_invariant :
    (∀ (ws : List Nat) (s : Nat) (v : List Nat),
      normalizeWeights ws s = .ok v →
      v.sum = ONE ∧
      ∀ i, i ≠ 0 → v[i]? = (ws.map (fun w => w * ONE / s))[i]?) ∧
    (∀ ws : List Nat, ws ≠ [] → ws.sum ≠ 0 →
      ∃ v, normalizeWeights ws ws.sum = .ok v ∧ v.sum = ONE) ∧
    (∀ (cfg : Cfg) (env : Env) (st : VaultState) (v : List Nat),
      getNormalizedWeights cfg env st = .ok v →
      v.sum = ONE ∧ v.length = cfg.numTokens) := by
  refine ⟨?_, ?_, ?_⟩
  · intro ws s v h
    obtain ⟨h1, _, h3⟩ := normalizeWeights_ok h
    exact ⟨h1, h3⟩
  · intro ws h0 hs
    exact normalizeWeights_total h0 hs
  · intro cfg env st v h
    exact getNormalizedWeights_ok h

/-- C1, counterexample to the claim as stated: `normalizeWeights` does not
return a vector for *every* weights array and nonzero `weightSum` — with
`weights = [2·ONE, 2·ONE]` and `weightSum = ONE` the checked residue
subtraction underflows and the call reverts with an arithmetic panic. -/
theorem C1_weight_sum_invariant_counterexample :
    normalizeWeights [2 * ONE, 2 * ONE] ONE = .error .arithPanic := by
  rfl

/-- C1, witness: the amended theorem applied at concrete inputs. -/
theorem C1_weight_sum_invariant_witness :
    normalizeWeights [ONE, 3 * ONE] (4 * ONE) =
      .ok [25 * 10 ^ 16, 75 * 10 ^ 16] ∧
    ([25 * 10 ^ 16, 75 * 10 ^ 16] : List Nat).sum = ONE := by
  have h : normalizeWeights [ONE, 3 * ONE] (4 * ONE) =
      .ok [25 * 10 ^ 16, 75 * 10 ^ 16] := by rfl
  exact ⟨h, (C1_weight_sum_invariant.1 _ _ _ h).1⟩

/-- C4 (amended): `getFeeIndex(lockGuaranteedFee)` returns
`(now - lastFeeCheckpoint)` when positive and 0 otherwise, plus — only
when `lockGuaranteedFee` is set — `(createdAt + minFeeDuration - now)`
whenever that point is still in the future.  The guaranteed flag is passed
as `true` only by `finalize`; `setGuardian` and `claimGuardianFees` settle
fees with `lockGuardianFees(false)`.  In the concrete scenario
(`managementFee = 10^9`, `minFeeDuration = 1000s`, fee checkpoint at
`createdAt`, finalize at `createdAt + 500s`) the fee index is exactly
`1000`, so finalize credits the guardian exactly
`holdings * 1000 * managementFee / ONE` per slot. -/
theorem C4_guaranteed_fee_index :
    (∀ (now lcp created minDur : Nat) (lock : Bool),
      getFeeIndex now lcp created minDur lock =
        (if lcp < now then now - lcp else 0) +
        (if lock ∧ now < created + minDur then created + minDur - now
         else 0)) ∧
    (∀ now lcp created minDur : Nat, minDur = 1000 → lcp = created →
      now = created + 500 → getFeeIndex now lcp created minDur true = 1000) ∧
    Except.map (fun p => feeOf p.1.guardiansFee 1)
      (finalize feeCfg feeEnv feeSt) = .ok [10 ^ 12] ∧
    Except.map (fun s => feeOf s.guardiansFee 1)
      (setGuardian feeCfg feeEnv feeSt 2) = .ok [5 * 10 ^ 11] ∧
    Except.map (fun p => p.2)
      (claimGuardianFees feeCfg feeEnv feeSt 1) = .ok [5 * 10 ^ 11] := by
  refine ⟨?_, ?_, by rfl, by rfl, by rfl⟩
  · intro now lcp created minDur lock
    unfold getFeeIndex
    cases lock with
    | false => simp
    | true =>
      simp only [true_and]
      by_cases h : now < created + minDur <;> simp [h]
  · intro now lcp created minDur h1 h2 h3
    subst h1; subst h2; subst h3
    unfold getFeeIndex
    simp

/-- C4, counterexample to the claim as stated: the `lockGuaranteedFee`
flag is NOT set on guardian change or explicit claim — at `feeSt` (500s
after creation, `minFeeDuration = 1000s`) `setGuardian` credits the
outgoing guardian only the elapsed 500-second fee `5·10^11`, and
`claimGuardianFees` transfers the same, whereas the guaranteed-fee accrual
the claim asserts (`lockGuardianFees(true)`, as run by `finalize`) credits
`10^12`. -/
theorem C4_guaranteed_fee_index_counterexample :
    Except.map (fun s => feeOf s.guardiansFee 1)
      (setGuardian feeCfg feeEnv feeSt 2) = .ok [5 * 10 ^ 11] ∧
    Except.map (fun p => p.2)
      (claimGuardianFees feeCfg feeEnv feeSt 1) = .ok [5 * 10 ^ 11] ∧
    Except.map (fun s => feeOf s.guardiansFee 1)
      (lockGuardianFees feeCfg feeEnv feeSt true) = .ok [10 ^ 12] ∧
    (5 * 10 ^ 11 : Nat) ≠ 10 ^ 12 := by
  exact ⟨rfl, rfl, rfl, by decide⟩

/-- C4, witness: the fee-index formula and the finalize scenario at
concrete numbers. -/
theorem C4_guaranteed_fee_index_witness :
    getFeeIndex 500 0 0 1000 true = 1000 ∧
    getFeeIndex 700 200 0 1000 false = 500 := by
  constructor
  · exact C4_guaranteed_fee_index.2.1 500 0 0 1000 rfl rfl rfl
  · rw [C4_guaranteed_fee_index.1 700 200 0 1000 false]
    decide

theorem checkOracleStatusAux_stale {nIdx now maxDelay : Nat} :
    ∀ (i : Nat) (l : List Nat), (∀ u ∈ l, u ≤ now) →
    (∃ j, j < l.length ∧ i + j ≠ nIdx ∧ maxDelay < now - l.getD j 0) →
    ∃ j d, checkOracleStatusAux nIdx now maxDelay i l =
      .error (.oracleIsDelayedBeyondMax j d maxDelay) ∧ maxDelay < d := by
  intro i l
  induction l generalizing i with
  | nil =>
    rintro _ ⟨j, hj, _⟩
    simp at hj
  | cons u us ih =>
    rintro hle ⟨j, hj, hne, hst⟩
    have hu : u ≤ now := hle u (List.mem_cons_self _ _)
    unfold checkOracleStatusAux
    by_cases hi : i = nIdx
    · rw [if_pos hi]
      apply ih (i + 1) (fun x hx => hle x (List.mem_cons_of_mem _ hx))
      cases j with
      | zero => exact absurd hi (by simpa using hne)
      | succ k =>
        refine ⟨k, by simpa using hj, by omega, by simpa using hst⟩
    · rw [if_neg hi]
      by_cases hd : maxDelay < now - u
      · refine ⟨i, now - u, ?_, hd⟩
        simp [nsub, hu, hd, Bind.bind, Except.bind]
      · cases j with
        | zero => simp at hst; omega
        | succ k =>
          have hrec := ih (i + 1)
            (fun x hx => hle x (List.mem_cons_of_mem _ hx))
            ⟨k, by simpa using hj, by omega, by simpa using hst⟩
          obtain ⟨j', d', hj', hd'⟩ := hrec
          refine ⟨j', d', ?_, hd'⟩
          simp [nsub, hu, hd, Bind.bind, Except.bind, hj']

theorem checkOracleStatus_stale {oraclesEnabled : Bool}
    {nIdx now maxDelay : Nat} {l : List Nat}
    (he : oraclesEnabled = true) (hle : ∀ u ∈ l, u ≤ now)
    (hst : ∃ j, j < l.length ∧ j ≠ nIdx ∧ maxDelay < now - l.getD j 0) :
    ∃ j d, checkOracleStatus oraclesEnabled nIdx now maxDelay l =
      .error (.oracleIsDelayedBeyondMax j d maxDelay) ∧ maxDelay < d := by
  subst he
  unfold checkOracleStatus
  simp only [Bool.not_true, Bool.false_eq_true, if_false]
  exact checkOracleStatusAux_stale 0 l hle (by simpa using hst)

/-- C7: `checkOracleStatus` fails with `OraclesAreDisabled` whenever the
oracle subsystem is administratively disabled; otherwise (for monotonic
feeds, `updatedAt ≤ now`) it fails with `OracleIsDelayedBeyondMax`
whenever `now - updatedAt[i] > maxOracleDelay` for some non-numeraire
slot; this gate makes `enableTradingWithOraclePrice` fail under a stale
non-numeraire oracle even when the price values are valid (the prices were
read successfully); and a DETERMINED deposit can never select ORACLE
pricing under a stale oracle — `getDeterminedPrices` then either reverts
or returns SPOT. -/
theorem C7_oracle_staleness_gate :
    (∀ (nIdx now maxDelay : Nat) (l : List Nat),
      checkOracleStatus false nIdx now maxDelay l =
        .error .oraclesAreDisabled) ∧
    (∀ (nIdx now maxDelay : Nat) (l : List Nat),
      (∀ u ∈ l, u ≤ now) →
      (∃ j, j < l.length ∧ j ≠ nIdx ∧ maxDelay < now - l.getD j 0) →
      ∃ j d, checkOracleStatus true nIdx now maxDelay l =
        .error (.oracleIsDelayedBeyondMax j d maxDelay) ∧ maxDelay < d) ∧
    (∀ (cfg : Cfg) (env : Env) (st : VaultState) (prices ua : List Nat),
      st.initialized = true → st.oraclesEnabled = true →
      getOraclePrices cfg env = .ok (prices, ua) →
      (∀ u ∈ ua, u ≤ env.now) →
      (∃ j, j < ua.length ∧ j ≠ cfg.numeraireAssetIndex ∧
        cfg.maxOracleDelay < env.now - ua.getD j 0) →
      ∃ j d, enableTradingWithOraclePrice cfg env st =
        .error (.oracleIsDelayedBeyondMax j d cfg.maxOracleDelay)) ∧
    (∀ (cfg : Cfg) (env : Env) (st : VaultState)
       (amounts prices ua : List Nat),
      st.oraclesEnabled = true →
      getOraclePrices cfg env = .ok (prices, ua) →
      (∀ u ∈ ua, u ≤ env.now) →
      (∃ j, j < ua.length ∧ j ≠ cfg.numeraireAssetIndex ∧
        cfg.maxOracleDelay < env.now - ua.getD j 0) →
      ∀ p t, getDeterminedPrices cfg env st amounts = .ok (p, t) →
        t = PriceType.spot) := by
  refine ⟨?_, ?_, ?_, ?_⟩
  · intro nIdx now maxDelay l
    simp [checkOracleStatus]
  · intro nIdx now maxDelay l hle hst
    exact checkOracleStatus_stale rfl hle hst
  · intro cfg env st prices ua hinit hen hop hle hst
    obtain ⟨j, d, herr, hd⟩ := @checkOracleStatus_stale st.oraclesEnabled
      cfg.numeraireAssetIndex env.now cfg.maxOracleDelay ua hen hle hst
    refine ⟨j, d, ?_⟩
    unfold enableTradingWithOraclePrice
    rw [hinit]
    simp only [Bool.not_true, Bool.false_eq_true, if_false]
    rw [hop]
    simp only [Bind.bind, Except.bind]
    rw [herr]
    rfl
  · intro cfg env st amounts prices ua hen hop hle hst p t h
    obtain ⟨j, d, herr, hd⟩ := @checkOracleStatus_stale st.oraclesEnabled
      cfg.numeraireAssetIndex env.now cfg.maxOracleDelay ua hen hle hst
    unfold getDeterminedPrices at h
    simp only [bind_ok] at h
    obtain ⟨⟨op', ua'⟩, hop', sp, hsp, ub, hub, utb, hutb, tv, htv, hbr⟩ := h
    rw [hop] at hop'
    rw [Except.ok.injEq, Prod.mk.injEq] at hop'
    obtain ⟨hop1, hop2⟩ := hop'
    subst hop2
    split at hbr
    · rw [herr] at hbr
      simp [Bind.bind, Except.bind] at hbr
    · simp only [bind_ok] at hbr
      obtain ⟨u, hdiv, dv, hdv, hif⟩ := hbr
      split at hif
      · rw [pure_ok, Prod.mk.injEq] at hif
        exact hif.2.symm
      · rw [herr] at hif
        simp [Bind.bind, Except.bind] at hif

/-- C7, witness: the gate at concrete inputs — the non-numeraire feed of
`staleEnv` is 1300 seconds old against a 500-second maximum, so
`enableTradingWithOraclePrice` fails with the staleness error even though
its price is valid. -/
theorem C7_oracle_staleness_gate_witness :
    (∃ j d, enableTradingWithOraclePrice twoTokenCfg staleEnv twoTokenSt =
      .error (.oracleIsDelayedBeyondMax j d 500)) ∧
    checkOracleStatus false 0 2000 500 [0, 700] =
      .error .oraclesAreDisabled := by
  constructor
  · exact C7_oracle_staleness_gate.2.2.1 twoTokenCfg staleEnv twoTokenSt
      [ONE, ONE] [0, 700] rfl rfl (by rfl) (by decide)
      ⟨1, by decide, by decide, by decide⟩
  · exact C7_oracle_staleness_gate.1 0 2000 500 [0, 700]

/-- C9: `updateWeightsGradually` validates its schedule exactly as the
spec says — fail when `startTime` exceeds `2^32-1`, then when `endTime`
does; clamp `startTime` to `max(now, startTime)`; fail
`WeightChangeEndBeforeStart` when the clamped start exceeds `endTime`; and
fail `WeightChangeDurationIsBelowMin` when `endTime` is less than the
clamped start plus the minimum duration (4 hours). -/
theorem C9_schedule_validation (cfg : Cfg) (env : Env) (st : VaultState)
    (tw : List Nat) (startTime endTime : Nat)
    (hinit : st.initialized = true) (hfin : st.finalized = false) :
    (UINT32_MAX < startTime →
      updateWeightsGradually cfg env st tw startTime endTime =
        .error .weightChangeStartTimeIsAboveMax) ∧
    (startTime ≤ UINT32_MAX → UINT32_MAX < endTime →
      updateWeightsGradually cfg env st tw startTime endTime =
        .error .weightChangeEndTimeIsAboveMax) ∧
    (startTime ≤ UINT32_MAX → endTime ≤ UINT32_MAX →
      endTime < max env.now startTime →
      updateWeightsGradually cfg env st tw startTime endTime =
        .error .weightChangeEndBeforeStart) ∧
    (startTime ≤ UINT32_MAX → endTime ≤ UINT32_MAX →
      max env.now startTime ≤ endTime →
      endTime < max env.now startTime + MINIMUM_WEIGHT_CHANGE_DURATION →
      updateWeightsGradually cfg env st tw startTime endTime =
        .error .weightChangeDurationIsBelowMin) := by
  refine ⟨?_, ?_, ?_, ?_⟩
  · intro h1
    unfold updateWeightsGradually
    simp [hinit, hfin, h1, throw_bind]
  · intro h1 h2
    unfold updateWeightsGradually
    simp [hinit, hfin, Nat.not_lt.mpr h1, h2, throw_bind]
  · intro h1 h2 h3
    unfold updateWeightsGradually
    simp [hinit, hfin, Nat.not_lt.mpr h1, Nat.not_lt.mpr h2, h3,
      throw_bind]
  · intro h1 h2 h3 h4
    unfold updateWeightsGradually
    simp [hinit, hfin, Nat.not_lt.mpr h1, Nat.not_lt.mpr h2,
      Nat.not_lt.mpr h3, h4, throw_bind]

/-- C9, witness: the validation at concrete inputs (`now = 2000`). -/
theorem C9_schedule_validation_witness :
    updateWeightsGradually twoTokenCfg staleEnv twoTokenSt [ONE] (2 ^ 32)
      100 = .error .weightChangeStartTimeIsAboveMax ∧
    updateWeightsGradually twoTokenCfg staleEnv twoTokenSt [ONE] 3000
      3100 = .error .weightChangeDurationIsBelowMin ∧
    updateWeightsGradually twoTokenCfg staleEnv twoTokenSt [ONE] 3000
      2500 = .error .weightChangeEndBeforeStart := by
  refine ⟨?_, ?_, ?_⟩
  · exact (C9_schedule_validation twoTokenCfg staleEnv twoTokenSt [ONE]
      (2 ^ 32) 100 rfl rfl).1 (by decide)
  · exact (C9_schedule_validation twoTokenCfg staleEnv twoTokenSt [ONE]
      3000 3100 rfl rfl).2.2.2 (by decide) (by decide) (by decide)
      (by decide)
  · exact (C9_schedule_validation twoTokenCfg staleEnv twoTokenSt [ONE]
      3000 2500 rfl rfl).2.2.1 (by decide) (by decide) (by decide)

theorem weightChangeRatioOf_panic_iff (w t : Nat) :
    weightChangeRatioOf w t = .error .arithPanic ↔ w = 0 ∨ t = 0 := by
  by_cases h : t < w <;> by_cases hw : w = 0 <;> by_cases ht : t = 0 <;>
    simp [weightChangeRatioOf, ndiv, h, hw, ht]

theorem weightChangeRatioOf_ok (w t : Nat) (hw : w ≠ 0) (ht : t ≠ 0) :
    weightChangeRatioOf w t =
      .ok (if t < w then ONE * w / t else ONE * t / w) := by
  by_cases h : t < w <;> simp [weightChangeRatioOf, ndiv, h, hw, ht]

theorem checkWeightChangeRatiosAux_panic (maxi : Nat) :
    ∀ (i : Nat) (cw tw : List Nat), cw.length = tw.length →
    (∀ j, j < cw.length →
      ∀ r, weightChangeRatioOf (cw.getD j 1) (tw.getD j 1) = .ok r →
      r ≤ maxi) →
    (∃ k, k < cw.length ∧ (cw.getD k 1 = 0 ∨ tw.getD k 1 = 0)) →
    checkWeightChangeRatiosAux maxi i cw tw = .error .arithPanic := by
  intro i cw
  induction cw generalizing i with
  | nil =>
    rintro tw _ _ ⟨k, hk, _⟩
    simp at hk
  | cons w ws ih =>
    intro tw hlen hsafe hex
    cases tw with
    | nil => simp at hlen
    | cons t ts =>
      unfold checkWeightChangeRatiosAux
      by_cases hz : w = 0 ∨ t = 0
      · have := (weightChangeRatioOf_panic_iff w t).mpr hz
        rw [this]
        rfl
      · push_neg at hz
        have hok := weightChangeRatioOf_ok w t hz.1 hz.2
        rw [hok, ok_bind]
        have hle : (if t < w then ONE * w / t else ONE * t / w) ≤ maxi := by
          have := hsafe 0 (by simp) _ (by simpa using hok)
          simpa using this
        rw [if_neg (Nat.not_lt.mpr hle)]
        apply ih (i + 1) ts (by simpa using hlen)
        · intro j hj r hr
          exact hsafe (j + 1) (by simpa using hj) r (by simpa using hr)
        · obtain ⟨k, hk, hzk⟩ := hex
          cases k with
          | zero =>
            simp at hzk
            rcases hzk with h0 | h0
            · exact absurd h0 hz.1
            · exact absurd h0 hz.2
          | succ m =>
            exact ⟨m, by simpa using hk, by simpa using hzk⟩

theorem checkWeightChangeRatiosAux_no_panic (maxi : Nat) :
    ∀ (i : Nat) (cw tw : List Nat), cw.length = tw.length →
    (∀ k, k < cw.length → cw.getD k 1 ≠ 0 ∧ tw.getD k 1 ≠ 0) →
    checkWeightChangeRatiosAux maxi i cw tw ≠ .error .arithPanic := by
  intro i cw
  induction cw generalizing i with
  | nil =>
    intro tw hlen _
    cases tw with
    | nil => simp [checkWeightChangeRatiosAux]
    | cons t ts => simp at hlen
  | cons w ws ih =>
    intro tw hlen hpos
    cases tw with
    | nil => simp at hlen
    | cons t ts =>
      unfold checkWeightChangeRatiosAux
      have hz := hpos 0 (by simp)
      simp only [List.getD_cons_zero] at hz
      obtain ⟨r, hr⟩ : ∃ r, weightChangeRatioOf w t = .ok r :=
        ⟨_, weightChangeRatioOf_ok w t hz.1 hz.2⟩
      rw [hr, ok_bind]
      by_cases hgt : maxi < r
      · rw [if_pos hgt]
        simp
      · rw [if_neg hgt]
        apply ih (i + 1) ts (by simpa using hlen)
        intro k hk
        have := hpos (k + 1) (by simpa using hk)
        simpa using this

/-- C10 (amended): `getWeightChangeRatio` is well-defined only when both
arguments are nonzero — it reverts with an arithmetic panic (division by
zero), not a typed error, exactly when the current or target weight is
zero.  The rate-limit check therefore aborts with an arithmetic panic
whenever some pool token's current or target pool weight is zero,
*provided* no earlier-indexed token already exceeds the maximum ratio (a
lower-indexed `WeightChangeRatioIsAboveMax` fires first otherwise); and
under the precondition that all current and target pool weights are
positive, the panic branch is unreachable. -/
theorem C10_zero_weight_ratio_panic :
    (∀ w t, weightChangeRatioOf w t = .error .arithPanic ↔
      w = 0 ∨ t = 0) ∧
    (∀ (cw tw : List Nat) (startTime endTime : Nat),
      startTime ≤ endTime → cw.length = tw.length →
      (∀ j, j < cw.length →
        ∀ r, weightChangeRatioOf (cw.getD j 1) (tw.getD j 1) = .ok r →
        r ≤ MAX_WEIGHT_CHANGE_RATE * (endTime - startTime)) →
      (∃ k, k < cw.length ∧ (cw.getD k 1 = 0 ∨ tw.getD k 1 = 0)) →
      checkWeightChangeRatios cw tw startTime endTime =
        .error .arithPanic) ∧
    (∀ (cw tw : List Nat) (startTime endTime : Nat),
      startTime ≤ endTime → cw.length = tw.length →
      (∀ k, k < cw.length → cw.getD k 1 ≠ 0 ∧ tw.getD k 1 ≠ 0) →
      checkWeightChangeRatios cw tw startTime endTime ≠
        .error .arithPanic) := by
  refine ⟨weightChangeRatioOf_panic_iff, ?_, ?_⟩
  · intro cw tw startTime endTime hse hlen hsafe hex
    unfold checkWeightChangeRatios nsub
    rw [if_pos hse, ok_bind]
    exact checkWeightChangeRatiosAux_panic _ 0 cw tw hlen hsafe hex
  · intro cw tw startTime endTime hse hlen hpos
    unfold checkWeightChangeRatios nsub
    rw [if_pos hse, ok_bind]
    exact checkWeightChangeRatiosAux_no_panic _ 0 cw tw hlen hpos

/-- C10, counterexample to the claim as stated: with current weights
`[ONE, ONE]` and targets `[1, 0]` over a 1-second window, token 1 has a
zero target weight, yet the call aborts with the typed
`WeightChangeRatioIsAboveMax` at index 0 (ratio `10^36` against maximum
`10^15`), not with an arithmetic panic. -/
theorem C10_zero_weight_ratio_panic_counterexample :
    checkWeightChangeRatios [ONE, ONE] [1, 0] 0 1 =
      .error (.weightChangeRatioIsAboveMax 0 (10 ^ 36) (10 ^ 15)) ∧
    Except.error (VErr.weightChangeRatioIsAboveMax 0 (10 ^ 36) (10 ^ 15)) ≠
      (Except.error .arithPanic : Except VErr Unit) := by
  refine ⟨rfl, ?_⟩
  intro h
  injection h with h'
  cases h'

/-- C10, witness: the amended theorem applied at concrete inputs — a zero
target weight behind in-range ratios panics, and positive weights never
panic. -/
theorem C10_zero_weight_ratio_panic_witness :
    checkWeightChangeRatios [ONE, ONE] [ONE, 0] 0 (10 ^ 6) =
      .error .arithPanic ∧
    checkWeightChangeRatios [ONE, ONE] [ONE, ONE] 0 (10 ^ 6) ≠
      .error .arithPanic := by
  constructor
  · exact C10_zero_weight_ratio_panic.2.1 [ONE, ONE] [ONE, 0] 0 (10 ^ 6)
      (by decide) (by decide)
      (by
        intro j hj r hr
        match j with
        | 0 =>
          have heq : (Except.ok r : Except VErr Nat) = .ok (10 ^ 18) := by
            rw [← hr]
            rfl
          injection heq with h'
          subst h'
          decide
        | 1 =>
          have heq : (Except.ok r : Except VErr Nat) =
              .error .arithPanic := by
            rw [← hr]
            rfl
          cases heq
        | n + 2 =>
          simp only [List.length_cons, List.length_nil] at hj
          omega)
      ⟨1, by decide, by decide⟩
  · exact C10_zero_weight_ratio_panic.2.2 [ONE, ONE] [ONE, ONE] 0 (10 ^ 6)
      (by decide) (by decide)
      (by
        intro k hk
        match k with
        | 0 => exact ⟨by decide, by decide⟩
        | 1 => exact ⟨by decide, by decide⟩
        | n + 2 =>
          simp only [List.length_cons, List.length_nil] at hk
          omega)

/-- C8: per yield slot, `depositUnderlyingAsset` and
`withdrawUnderlyingAsset` perform no transfer and change no balance
(returning 0) when the action's notional value at the oracle price (the
raw amount for the numeraire-mapped slot) is below
`minYieldActionThreshold`, or when the wrapper's `maxDeposit`/
`maxWithdraw` call reverts (absorbed, never aborting the enclosing
rebalancing) or reports 0; otherwise they act on
`min(requested, wrapper-reported maximum)`. -/
theorem C8_dust_and_absorbed_wrapper_failure :
    (∀ (cfg : Cfg) (w : Wrapper) (yb : Nat) (vb : List Nat)
       (amount price uIdx : Nat),
      (if uIdx = cfg.numeraireAssetIndex then
        amount < cfg.minYieldActionThreshold
       else amount * price / ONE < cfg.minYieldActionThreshold) →
      depositUnderlyingAsset cfg w yb vb amount price uIdx =
        .ok (yb, vb, 0) ∧
      withdrawUnderlyingAsset cfg w yb vb amount price uIdx =
        .ok (yb, vb, 0)) ∧
    (∀ (cfg : Cfg) (w : Wrapper) (yb : Nat) (vb : List Nat)
       (amount price uIdx : Nat),
      w.maxDeposit = none ∨ w.maxDeposit = some 0 →
      depositUnderlyingAsset cfg w yb vb amount price uIdx =
        .ok (yb, vb, 0)) ∧
    (∀ (cfg : Cfg) (w : Wrapper) (yb : Nat) (vb : List Nat)
       (amount price uIdx : Nat),
      w.maxWithdraw = none ∨ w.maxWithdraw = some 0 →
      withdrawUnderlyingAsset cfg w yb vb amount price uIdx =
        .ok (yb, vb, 0)) ∧
    (∀ (cfg : Cfg) (w : Wrapper) (yb : Nat) (vb : List Nat)
       (amount price uIdx m shares : Nat) (vb' : List Nat),
      ¬(if uIdx = cfg.numeraireAssetIndex then
          amount < cfg.minYieldActionThreshold
        else amount * price / ONE < cfg.minYieldActionThreshold) →
      w.maxDeposit = some m → m ≠ 0 →
      w.depositCall (min amount m) = some shares →
      subAt vb uIdx (min amount m) = .ok vb' →
      depositUnderlyingAsset cfg w yb vb amount price uIdx =
        .ok (yb + shares, vb', min amount m)) ∧
    (∀ (cfg : Cfg) (w : Wrapper) (yb : Nat) (vb : List Nat)
       (amount price uIdx m assetsOut sharesBurned yb' : Nat)
       (vb' : List Nat),
      ¬(if uIdx = cfg.numeraireAssetIndex then
          amount < cfg.minYieldActionThreshold
        else amount * price / ONE < cfg.minYieldActionThreshold) →
      w.maxWithdraw = some m → m ≠ 0 →
      w.withdrawCall (min amount m) = some (assetsOut, sharesBurned) →
      nsub yb sharesBurned = .ok yb' → addAt vb uIdx assetsOut = .ok vb' →
      withdrawUnderlyingAsset cfg w yb vb amount price uIdx =
        .ok (yb', vb', assetsOut)) := by
  refine ⟨?_, ?_, ?_, ?_, ?_⟩
  · intro cfg w yb vb amount price uIdx hth
    by_cases hn : uIdx = cfg.numeraireAssetIndex
    · rw [if_pos hn] at hth
      constructor <;>
        simp [depositUnderlyingAsset, withdrawUnderlyingAsset, hn, hth,
          Pure.pure, Except.pure]
    · rw [if_neg hn] at hth
      constructor <;>
        simp [depositUnderlyingAsset, withdrawUnderlyingAsset, hn, hth,
          Pure.pure, Except.pure]
  · intro cfg w yb vb amount price uIdx hmx
    have step : ∀ hmx2 : w.maxDeposit = none ∨ w.maxDeposit = some 0,
        depositUnderlyingAsset cfg w yb vb amount price uIdx =
          .ok (yb, vb, 0) := by
      intro hmx2
      by_cases hn : uIdx = cfg.numeraireAssetIndex
      · by_cases hth : amount < cfg.minYieldActionThreshold <;>
          rcases hmx2 with h2 | h2 <;>
          simp [depositUnderlyingAsset, hn, hth, h2, Pure.pure,
            Except.pure, Bind.bind, Except.bind]
      · by_cases hth :
            amount * price / ONE < cfg.minYieldActionThreshold <;>
          rcases hmx2 with h2 | h2 <;>
          simp [depositUnderlyingAsset, hn, hth, h2, Pure.pure,
            Except.pure, Bind.bind, Except.bind]
    exact step hmx
  · intro cfg w yb vb amount price uIdx hmx
    by_cases hn : uIdx = cfg.numeraireAssetIndex
    · by_cases hth : amount < cfg.minYieldActionThreshold <;>
        rcases hmx with h2 | h2 <;>
        simp [withdrawUnderlyingAsset, hn, hth, h2, Pure.pure,
          Except.pure, Bind.bind, Except.bind]
    · by_cases hth :
          amount * price / ONE < cfg.minYieldActionThreshold <;>
        rcases hmx with h2 | h2 <;>
        simp [withdrawUnderlyingAsset, hn, hth, h2, Pure.pure,
          Except.pure, Bind.bind, Except.bind]
  · intro cfg w yb vb amount price uIdx m shares vb' hth hmx hm hcall hsub
    by_cases hn : uIdx = cfg.numeraireAssetIndex
    · rw [if_pos hn] at hth
      subst hn
      simp [depositUnderlyingAsset, hth, hmx, hm, hcall, hsub,
        Bind.bind, Except.bind, Pure.pure, Except.pure]
    · rw [if_neg hn] at hth
      simp [depositUnderlyingAsset, hn, hth, hmx, hm, hcall, hsub,
        Bind.bind, Except.bind, Pure.pure, Except.pure]
  · intro cfg w yb vb amount price uIdx m assetsOut sharesBurned yb' vb'
      hth hmx hm hcall hyb hvb
    by_cases hn : uIdx = cfg.numeraireAssetIndex
    · rw [if_pos hn] at hth
      subst hn
      simp [withdrawUnderlyingAsset, hth, hmx, hm, hcall, hyb, hvb,
        Bind.bind, Except.bind, Pure.pure, Except.pure]
    · rw [if_neg hn] at hth
      simp [withdrawUnderlyingAsset, hn, hth, hmx, hm, hcall, hyb, hvb,
        Bind.bind, Except.bind, Pure.pure, Except.pure]

/-- C8, witness: a below-threshold action is a no-op returning 0, a
reverting `maxWithdraw` is absorbed as a no-op, and an in-range deposit
acts on `min(requested, maxDeposit)`. -/
theorem C8_dust_and_absorbed_wrapper_failure_witness :
    depositUnderlyingAsset yieldCfg stdWrapper 100 [50] 5 ONE 0 =
      .ok (100, [50], 0) ∧
    withdrawUnderlyingAsset yieldCfg revertingWrapper 100 [50] 20 ONE 0 =
      .ok (100, [50], 0) ∧
    depositUnderlyingAsset yieldCfg stdWrapper 100 [50] 20 ONE 0 =
      .ok (120, [30], 20) := by
  refine ⟨?_, ?_, ?_⟩
  · exact (C8_dust_and_absorbed_wrapper_failure.1 yieldCfg stdWrapper 100
      [50] 5 ONE 0 (by decide)).1
  · exact C8_dust_and_absorbed_wrapper_failure.2.2.1 yieldCfg
      revertingWrapper 100 [50] 20 ONE 0 (Or.inl rfl)
  · have h := C8_dust_and_absorbed_wrapper_failure.2.2.2.1 yieldCfg
      stdWrapper 100 [50] 20 ONE 0 (10 ^ 24) 20 [30] (by decide) rfl
      (by decide) (by rfl) (by rfl)
    simpa using h

theorem divergenceLoop_cons_ne {maxDiv nIdx i op sp : Nat}
    {ops' sps' : List Nat} (hi : i ≠ nIdx) (hop : op ≠ 0) (hsp : sp ≠ 0) :
    divergenceLoop maxDiv nIdx i (op :: ops') (sp :: sps') =
      (if maxDiv < (if sp < op then op * ONE / sp else sp * ONE / op) then
        .error (.oracleSpotPriceDivergenceExceedsMax i
          (if sp < op then op * ONE / sp else sp * ONE / op) maxDiv)
      else divergenceLoop maxDiv nIdx (i + 1) ops' sps') := by
  unfold divergenceLoop
  rw [if_neg hi]
  by_cases hso : sp < op <;>
    simp [hso, ndiv, hop, hsp, Bind.bind, Except.bind] <;>
    (congr 1; rw [divergenceLoop.eq_def]; rfl)

theorem divergenceLoop_cons_skip {maxDiv nIdx i op sp : Nat}
    {ops' sps' : List Nat} (hi : i = nIdx) :
    divergenceLoop maxDiv nIdx i (op :: ops') (sp :: sps') =
      divergenceLoop maxDiv nIdx (i + 1) ops' sps' := by
  unfold divergenceLoop
  rw [if_pos hi, divergenceLoop.eq_def]

theorem divergenceLoop_err (maxDiv nIdx : Nat) :
    ∀ (i : Nat) (ops sps : List Nat), ops.length = sps.length →
    (∀ k, k < ops.length → i + k ≠ nIdx →
      ops.getD k 1 ≠ 0 ∧ sps.getD k 1 ≠ 0) →
    (∃ k, k < ops.length ∧ i + k ≠ nIdx ∧ maxDiv <
      (if sps.getD k 1 < ops.getD k 1 then
        ops.getD k 1 * ONE / sps.getD k 1
       else sps.getD k 1 * ONE / ops.getD k 1)) →
    ∃ j r, divergenceLoop maxDiv nIdx i ops sps =
      .error (.oracleSpotPriceDivergenceExceedsMax j r maxDiv) ∧
      maxDiv < r := by
  intro i ops
  induction ops generalizing i with
  | nil =>
    rintro sps _ _ ⟨k, hk, _⟩
    simp at hk
  | cons op ops' ih =>
    rintro sps hlen hnz ⟨k, hk, hne, hgt⟩
    cases sps with
    | nil => simp at hlen
    | cons sp sps' =>
      by_cases hi : i = nIdx
      · rw [divergenceLoop_cons_skip hi]
        apply ih (i + 1) sps' (by simpa using hlen)
        · intro m hm hmne
          have := hnz (m + 1) (by simpa using hm) (by omega)
          simpa using this
        · cases k with
          | zero => exact absurd hi (by simpa using hne)
          | succ m =>
            exact ⟨m, by simpa using hk, by omega, by simpa using hgt⟩
      · have hz := hnz 0 (by simp) (by simpa using hi)
        simp only [List.getD_cons_zero] at hz
        rw [divergenceLoop_cons_ne hi hz.1 hz.2]
        by_cases hd : maxDiv < (if sp < op then op * ONE / sp
            else sp * ONE / op)
        · rw [if_pos hd]
          exact ⟨i, _, rfl, hd⟩
        · rw [if_neg hd]
          cases k with
          | zero =>
            simp only [List.getD_cons_zero] at hgt
            exact absurd hgt hd
          | succ m =>
            apply ih (i + 1) sps' (by simpa using hlen)
            · intro j hj hjne
              have := hnz (j + 1) (by simpa using hj) (by omega)
              simpa using this
            · exact ⟨m, by simpa using hk, by omega, by simpa using hgt⟩

/-- C2: the decision procedure of `getDeterminedPrices`, with the internal
reads (oracle prices/timestamps, spot prices, underlying balances, total
value) bound by hypotheses.  Below `minReliableVaultValue` the result is
ORACLE pricing gated only by the staleness check — no divergence check
happens; otherwise a non-numeraire slot whose oracle/spot ratio
(larger/smaller, fixed point) exceeds `maxOracleSpotDivergence` makes the
call fail with `OracleSpotPriceDivergenceExceedsMax`; with divergence in
range, a deposit worth less than `minSignificantDepositValue` at spot gets
SPOT pricing with no staleness check, and anything else gets ORACLE
pricing gated by the staleness check. -/
theorem C2_price_selection_policy (cfg : Cfg) (env : Env) (st : VaultState)
    (amounts op ua sp ub utb : List Nat) (tv : Nat)
    (hop : getOraclePrices cfg env = .ok (op, ua))
    (hsp : getSpotPrices cfg env st.poolHoldings st.poolWeights = .ok sp)
    (hub : getUnderlyingBalances cfg env st = .ok ub)
    (hutb : getUnderlyingTotalBalances cfg st.poolHoldings ub = .ok utb)
    (htv : getValue cfg.numeraireAssetIndex utb sp = .ok tv) :
    (tv < cfg.minReliableVaultValue →
      getDeterminedPrices cfg env st amounts =
        Except.map (fun _ => (op, PriceType.oracle))
          (checkOracleStatus st.oraclesEnabled cfg.numeraireAssetIndex
            env.now cfg.maxOracleDelay ua)) ∧
    (cfg.minReliableVaultValue ≤ tv → op.length = sp.length →
      (∀ k, k < op.length → k ≠ cfg.numeraireAssetIndex →
        op.getD k 1 ≠ 0 ∧ sp.getD k 1 ≠ 0) →
      (∃ k, k < op.length ∧ k ≠ cfg.numeraireAssetIndex ∧
        cfg.maxOracleSpotDivergence <
          (if sp.getD k 1 < op.getD k 1 then
            op.getD k 1 * ONE / sp.getD k 1
           else sp.getD k 1 * ONE / op.getD k 1)) →
      ∃ j r, getDeterminedPrices cfg env st amounts =
        .error (.oracleSpotPriceDivergenceExceedsMax j r
          cfg.maxOracleSpotDivergence) ∧
        cfg.maxOracleSpotDivergence < r) ∧
    (cfg.minReliableVaultValue ≤ tv →
      divergenceLoop cfg.maxOracleSpotDivergence cfg.numeraireAssetIndex 0
        op sp = .ok () →
      ∀ dv, getValue cfg.numeraireAssetIndex amounts sp = .ok dv →
      (dv < cfg.minSignificantDepositValue →
        getDeterminedPrices cfg env st amounts =
          .ok (sp, PriceType.spot)) ∧
      (cfg.minSignificantDepositValue ≤ dv →
        getDeterminedPrices cfg env st amounts =
          Except.map (fun _ => (op, PriceType.oracle))
            (checkOracleStatus st.oraclesEnabled cfg.numeraireAssetIndex
              env.now cfg.maxOracleDelay ua))) := by
  have hunf : getDeterminedPrices cfg env st amounts =
      (if tv < cfg.minReliableVaultValue then
        checkOracleStatus st.oraclesEnabled cfg.numeraireAssetIndex env.now
          cfg.maxOracleDelay ua >>= fun _ => pure (op, PriceType.oracle)
      else
        divergenceLoop cfg.maxOracleSpotDivergence cfg.numeraireAssetIndex
          0 op sp >>= fun _ =>
        getValue cfg.numeraireAssetIndex amounts sp >>= fun dv =>
        if dv < cfg.minSignificantDepositValue then
          pure (sp, PriceType.spot)
        else
          checkOracleStatus st.oraclesEnabled cfg.numeraireAssetIndex
            env.now cfg.maxOracleDelay ua >>= fun _ =>
          pure (op, PriceType.oracle)) := by
    unfold getDeterminedPrices
    rw [hop]
    simp only [ok_bind, hsp, hub, hutb, htv]
  refine ⟨?_, ?_, ?_⟩
  · intro h1
    rw [hunf, if_pos h1]
    cases hchk : checkOracleStatus st.oraclesEnabled
        cfg.numeraireAssetIndex env.now cfg.maxOracleDelay ua with
    | error e => simp [hchk, error_bind, Except.map]
    | ok u => cases u; simp [hchk, ok_bind, Except.map]
  · intro h1 hlen hnz hex
    obtain ⟨j, r, herr, hr⟩ := divergenceLoop_err
      cfg.maxOracleSpotDivergence cfg.numeraireAssetIndex 0 op sp hlen
      (by simpa using hnz) (by simpa using hex)
    refine ⟨j, r, ?_, hr⟩
    rw [hunf, if_neg (Nat.not_lt.mpr h1), herr, error_bind]
  · intro h1 hdiv dv hdv
    constructor
    · intro h2
      rw [hunf, if_neg (Nat.not_lt.mpr h1), hdiv, ok_bind, hdv, ok_bind,
        if_pos h2]
      rfl
    · intro h2
      rw [hunf, if_neg (Nat.not_lt.mpr h1), hdiv, ok_bind, hdv, ok_bind,
        if_neg (Nat.not_lt.mpr h2)]
      cases hchk : checkOracleStatus st.oraclesEnabled
          cfg.numeraireAssetIndex env.now cfg.maxOracleDelay ua with
      | error e => simp [hchk, error_bind, Except.map]
      | ok u => cases u; simp [hchk, ok_bind, Except.map]

/-- C2, witness: the three decision outcomes at concrete states — a small
deposit into a healthy vault takes SPOT prices, divergent oracle/spot
prices abort, and a low-value vault takes ORACLE prices. -/
theorem C2_price_selection_policy_witness :
    getDeterminedPrices policyCfg policyEnv policySt [10, 0] =
      .ok ([ONE, 3 * ONE], PriceType.spot) ∧
    (∃ j r, getDeterminedPrices policyCfg divergeEnv policySt [10, 0] =
      .error (.oracleSpotPriceDivergenceExceedsMax j r (2 * ONE)) ∧
      2 * ONE < r) ∧
    getDeterminedPrices policyCfg policyEnv poorSt [10, 0] =
      .ok ([ONE, 2 * ONE], PriceType.oracle) := by
  refine ⟨?_, ?_, ?_⟩
  · exact ((C2_price_selection_policy policyCfg policyEnv policySt [10, 0]
      [ONE, 2 * ONE] [0, 900] [ONE, 3 * ONE] [] [3000, 1000] 6000
      (by rfl) (by rfl) (by rfl) (by rfl) (by rfl)).2.2
      (by decide) (by rfl) 10 (by rfl)).1 (by decide)
  · exact (C2_price_selection_policy policyCfg divergeEnv policySt [10, 0]
      [ONE, ONE] [0, 900] [ONE, 3 * ONE] [] [3000, 1000] 6000
      (by rfl) (by rfl) (by rfl) (by rfl) (by rfl)).2.1
      (by decide) (by decide)
      (by
        intro k hk hkn
        match k with
        | 0 => exact absurd rfl hkn
        | 1 => exact ⟨by decide, by decide⟩
        | n + 2 =>
          simp only [List.length_cons, List.length_nil] at hk
          omega)
      ⟨1, by decide, by decide, by decide⟩
  · exact ((C2_price_selection_policy policyCfg policyEnv poorSt [10, 0]
      [ONE, 2 * ONE] [0, 900] [ONE, 3 * ONE] [] [30, 10] 60
      (by rfl) (by rfl) (by rfl) (by rfl) (by rfl)).1 (by decide)).trans
      (by rfl)

theorem feeOf_setLedger_self (m : List (Nat × List Nat)) (a : Nat)
    (v : List Nat) : feeOf (setLedger m a v) a = v := by
  induction m with
  | nil => simp [setLedger, feeOf]
  | cons q m' ih =>
    by_cases hq : q.1 = a <;> simp [setLedger, feeOf, hq, ih]

theorem feeOf_delLedger_self (m : List (Nat × List Nat)) (a : Nat) :
    feeOf (delLedger m a) a = [] := by
  induction m with
  | nil => simp [delLedger, feeOf]
  | cons q m' ih =>
    by_cases hq : q.1 = a <;> simp [delLedger, feeOf, hq, ih]

/-- C6: `claimGuardianFees`, relative to the post-accrual state `stL`
(the state after the caller-is-guardian fee lock): an absent (zero-length)
ledger fails with `NoAvailableFeeForCaller`; on success the transferred
amounts are exactly the caller's ledger at call time (so never exceed
it), the caller's per-slot ledger entries all become zero — with the row
deleted entirely when the caller is not the current guardian — and the
aggregate outstanding-fee vector is decremented by the claimed
amounts. -/
theorem C6_claim_guardian_fees (cfg : Cfg) (env : Env) (st : VaultState)
    (caller : Nat) (stL : VaultState)
    (hinit : st.initialized = true) (hfin : st.finalized = false)
    (hlock : (if caller = st.guardian then lockGuardianFees cfg env st false
      else pure st) = .ok stL) :
    (feeOf stL.guardiansFee caller = [] →
      claimGuardianFees cfg env st caller =
        .error (.noAvailableFeeForCaller caller)) ∧
    (∀ st2 fees, claimGuardianFees cfg env st caller = .ok (st2, fees) →
      fees = feeOf stL.guardiansFee caller ∧
      (caller = stL.guardian →
        feeOf st2.guardiansFee caller = List.replicate cfg.numTokens 0) ∧
      (caller ≠ stL.guardian → feeOf st2.guardiansFee caller = []) ∧
      subLists stL.guardiansFeeTotal fees = .ok st2.guardiansFeeTotal) := by
  have hunf : claimGuardianFees cfg env st caller =
      (if (feeOf stL.guardiansFee caller).length = 0 then
        .error (.noAvailableFeeForCaller caller)
      else if (feeOf stL.guardiansFee caller).length ≠ cfg.numTokens then
        .error .arithPanic
      else
        subLists stL.guardiansFeeTotal (feeOf stL.guardiansFee caller)
          >>= fun total =>
        subLists stL.vaultBalances
          ((feeOf stL.guardiansFee caller).take cfg.numPoolTokens)
          >>= fun vb =>
        subLists stL.yieldBalances
          ((feeOf stL.guardiansFee caller).drop cfg.numPoolTokens)
          >>= fun yb =>
        pure ({ stL with
          guardiansFeeTotal := total, vaultBalances := vb,
          yieldBalances := yb,
          guardiansFee :=
            if caller ≠ stL.guardian then
              delLedger (setLedger stL.guardiansFee caller
                (List.replicate cfg.numTokens 0)) caller
            else
              setLedger stL.guardiansFee caller
                (List.replicate cfg.numTokens 0) },
          feeOf stL.guardiansFee caller)) := by
    unfold claimGuardianFees
    rw [hinit, hfin]
    simp only [Bool.not_true, Bool.false_eq_true, if_false, pure_bind]
    by_cases hc : caller = st.guardian
    · rw [if_pos hc] at hlock
      rw [if_pos hc, hlock, ok_bind]
      rfl
    · rw [if_neg hc] at hlock
      rw [pure_ok] at hlock
      subst hlock
      rw [if_neg hc]
      rfl
  refine ⟨?_, ?_⟩
  · intro habs
    rw [hunf, habs]
    simp
  · intro st2 fees h
    rw [hunf] at h
    split at h
    · exact absurd h (by simp)
    · split at h
      · exact absurd h (by simp)
      · simp only [bind_ok, pure_ok] at h
        obtain ⟨total, htot, vb, hvb, yb, hyb, hfin2⟩ := h
        rw [Prod.mk.injEq] at hfin2
        obtain ⟨hst2, hfees⟩ := hfin2
        subst hfees
        refine ⟨rfl, ?_, ?_, ?_⟩
        · intro hg
          rw [← hst2]
          simp only
          rw [if_neg (by simpa using hg)]
          exact feeOf_setLedger_self _ _ _
        · intro hg
          rw [← hst2]
          simp only
          rw [if_pos hg]
          exact feeOf_delLedger_self _ _
        · rw [← hst2]
          exact htot

/-- C6, witness: former guardian 5 claims fees `[3, 4]` — transferred
amounts equal the ledger, the aggregate vector is decremented to zero, the
row is deleted; a caller with no ledger row fails. -/
theorem C6_claim_guardian_fees_witness :
    claimGuardianFees yieldCfg yieldEnv claimSt 5 =
      .ok (claimStAfter, [3, 4]) ∧
    feeOf claimStAfter.guardiansFee 5 = [] ∧
    subLists claimSt.guardiansFeeTotal [3, 4] =
      .ok claimStAfter.guardiansFeeTotal ∧
    claimGuardianFees yieldCfg yieldEnv claimStNoRow 5 =
      .error (.noAvailableFeeForCaller 5) := by
  have h : claimGuardianFees yieldCfg yieldEnv claimSt 5 =
      .ok (claimStAfter, [3, 4]) := by rfl
  have h2 := (C6_claim_guardian_fees yieldCfg yieldEnv claimSt 5 claimSt
    rfl rfl (by rw [if_neg (by decide)]; rfl)).2 claimStAfter [3, 4] h
  refine ⟨h, h2.2.2.1 (by decide), h2.2.2.2, ?_⟩
  exact (C6_claim_guardian_fees yieldCfg yieldEnv claimStNoRow 5
    claimStNoRow rfl rfl (by rw [if_neg (by decide)]; rfl)).1 (by rfl)

theorem checkWeightChangeRatiosAux_err (maxi : Nat) :
    ∀ (i : Nat) (cw tw : List Nat), cw.length = tw.length →
    (∀ k, k < cw.length → cw.getD k 1 ≠ 0 ∧ tw.getD k 1 ≠ 0) →
    (∃ k, k < cw.length ∧
      ∀ r, weightChangeRatioOf (cw.getD k 1) (tw.getD k 1) = .ok r →
        maxi < r) →
    ∃ j r, checkWeightChangeRatiosAux maxi i cw tw =
        .error (.weightChangeRatioIsAboveMax j r maxi) ∧ maxi < r := by
  intro i cw
  induction cw generalizing i with
  | nil =>
    rintro tw _ _ ⟨k, hk, _⟩
    simp at hk
  | cons w ws ih =>
    intro tw hlen hpos hex
    cases tw with
    | nil => simp at hlen
    | cons t ts =>
      have hz := hpos 0 (by simp)
      simp only [List.getD_cons_zero] at hz
      have hok := weightChangeRatioOf_ok w t hz.1 hz.2
      by_cases hgt : maxi < (if t < w then ONE * w / t else ONE * t / w)
      · refine ⟨i, _, ?_, hgt⟩
        unfold checkWeightChangeRatiosAux
        rw [hok, ok_bind, if_pos hgt]
      · have hex' : ∃ k, k < ws.length ∧
            ∀ r, weightChangeRatioOf (ws.getD k 1) (ts.getD k 1) = .ok r →
              maxi < r := by
          obtain ⟨k, hk, hexk⟩ := hex
          cases k with
          | zero =>
            exact absurd (hexk _ (by simpa using hok)) hgt
          | succ m =>
            exact ⟨m, by simpa using hk,
              fun r hr => hexk r (by simpa using hr)⟩
        obtain ⟨j, r, herr, hr⟩ := ih (i + 1) ts (by simpa using hlen)
          (fun k hk => by simpa using hpos (k + 1) (by simpa using hk)) hex'
        refine ⟨j, r, ?_, hr⟩
        unfold checkWeightChangeRatiosAux
        rw [hok, ok_bind, if_neg hgt]
        exact herr

theorem checkWeightChangeRatios_err (cw tw : List Nat)
    (startTime endTime : Nat) (hse : startTime ≤ endTime)
    (hlen : cw.length = tw.length)
    (hpos : ∀ k, k < cw.length → cw.getD k 1 ≠ 0 ∧ tw.getD k 1 ≠ 0)
    (hex : ∃ k, k < cw.length ∧
      ∀ r, weightChangeRatioOf (cw.getD k 1) (tw.getD k 1) = .ok r →
        MAX_WEIGHT_CHANGE_RATE * (endTime - startTime) < r) :
    ∃ j r, checkWeightChangeRatios cw tw startTime endTime =
        .error (.weightChangeRatioIsAboveMax j r
          (MAX_WEIGHT_CHANGE_RATE * (endTime - startTime))) ∧
      MAX_WEIGHT_CHANGE_RATE * (endTime - startTime) < r := by
  unfold checkWeightChangeRatios nsub
  rw [if_pos hse, ok_bind]
  exact checkWeightChangeRatiosAux_err _ 0 cw tw hlen hpos hex

/-- C5: a weight-update request that passes the lifecycle and schedule
validation and whose yield/pool adjustments succeed, but in which some
pool token's change ratio `max(current,target)·ONE/min(current,target)`
exceeds `MAX_WEIGHT_CHANGE_RATIO * (endTime - startTime)` (all ratios
being well-defined), fails with `WeightChangeRatioIsAboveMax`, and the
reverted transaction leaves the vault state entirely unchanged — no
partial application of the weight update. -/
theorem C5_rate_limit_rejection (cfg : Cfg) (env : Env) (st : VaultState)
    (requestedWeights : List Nat) (startTime endTime : Nat)
    (st1 st2 : VaultState) (tpw : List Nat)
    (hinit : st.initialized = true) (hfin : st.finalized = false)
    (hsb : startTime ≤ UINT32_MAX) (heb : endTime ≤ UINT32_MAX)
    (hnow : env.now ≤ startTime)
    (hdur : startTime + MINIMUM_WEIGHT_CHANGE_DURATION ≤ endTime)
    (hlen : requestedWeights.length = cfg.numTokens)
    (hsum : requestedWeights.sum = ONE)
    (hadj : adjustYieldTokens cfg env st st.poolHoldings requestedWeights =
      .ok st1)
    (hpw : adjustPoolWeights cfg env st1 st.poolHoldings requestedWeights =
      .ok (st2, tpw))
    (hlen2 : st2.poolWeights.length = tpw.length)
    (hdef : ∀ k, k < st2.poolWeights.length →
      st2.poolWeights.getD k 1 ≠ 0 ∧ tpw.getD k 1 ≠ 0)
    (hex : ∃ k, k < st2.poolWeights.length ∧
      ∀ r, weightChangeRatioOf (st2.poolWeights.getD k 1) (tpw.getD k 1) =
        .ok r → MAX_WEIGHT_CHANGE_RATE * (endTime - startTime) < r) :
    (∃ j r, updateWeightsGradually cfg env st requestedWeights startTime
        endTime = .error (.weightChangeRatioIsAboveMax j r
          (MAX_WEIGHT_CHANGE_RATE * (endTime - startTime))) ∧
      MAX_WEIGHT_CHANGE_RATE * (endTime - startTime) < r) ∧
    applyOp st (updateWeightsGradually cfg env st requestedWeights
      startTime endTime) = st := by
  have hse : startTime ≤ endTime := le_trans (Nat.le_add_right _ _) hdur
  obtain ⟨j, r, herr, hr⟩ := checkWeightChangeRatios_err st2.poolWeights
    tpw startTime endTime hse hlen2 hdef hex
  have hvl : validateLen cfg requestedWeights = .ok requestedWeights := by
    simp [validateLen, hlen]
  have hcw : checkWeights requestedWeights = .ok () := by
    simp [checkWeights, hsum]
  have hrun : updateWeightsGradually cfg env st requestedWeights startTime
      endTime = .error (.weightChangeRatioIsAboveMax j r
        (MAX_WEIGHT_CHANGE_RATE * (endTime - startTime))) := by
    unfold updateWeightsGradually
    simp [hinit, hfin, Nat.not_lt.mpr hsb, Nat.not_lt.mpr heb,
      Nat.max_eq_right hnow, Nat.not_lt.mpr hse, Nat.not_lt.mpr hdur,
      hvl, hcw, hadj, hpw, ok_bind, herr, error_bind, throw_bind]
  exact ⟨⟨j, r, hrun, hr⟩, by rw [hrun]; rfl⟩

set_option maxRecDepth 10000 in
/-- C5, witness: for `twoTokenCfg` with fresh oracles, requesting weights
`[ONE - 10^13, 10^13]` over the window `[2000, 22000]` pivots token 1's
ratio to `5·10^22`, above the maximum `10^15 · 20000 = 2·10^19`: the call
fails with `WeightChangeRatioIsAboveMax` and the state is unchanged. -/
theorem C5_rate_limit_rejection_witness :
    (∃ j r, updateWeightsGradually twoTokenCfg freshTwoEnv twoTokenSt
        [ONE - 10 ^ 13, 10 ^ 13] 2000 22000 =
        .error (.weightChangeRatioIsAboveMax j r
          (MAX_WEIGHT_CHANGE_RATE * (22000 - 2000))) ∧
      MAX_WEIGHT_CHANGE_RATE * (22000 - 2000) < r) ∧
    applyOp twoTokenSt (updateWeightsGradually twoTokenCfg freshTwoEnv
      twoTokenSt [ONE - 10 ^ 13, 10 ^ 13] 2000 22000) = twoTokenSt := by
  have hadj : adjustYieldTokens twoTokenCfg freshTwoEnv twoTokenSt
      twoTokenSt.poolHoldings [ONE - 10 ^ 13, 10 ^ 13] =
      .ok twoTokenSt := rfl
  have hpw : adjustPoolWeights twoTokenCfg freshTwoEnv twoTokenSt
      twoTokenSt.poolHoldings [ONE - 10 ^ 13, 10 ^ 13] =
      .ok (twoTokenSt, [ONE - 10 ^ 13, 10 ^ 13]) := rfl
  refine C5_rate_limit_rejection twoTokenCfg freshTwoEnv twoTokenSt
    [ONE - 10 ^ 13, 10 ^ 13] 2000 22000 twoTokenSt twoTokenSt
    [ONE - 10 ^ 13, 10 ^ 13] rfl rfl (by decide) (by decide) (by decide)
    (by decide) rfl (by decide) hadj hpw rfl (by decide)
    ⟨1, by decide, fun r hr => ?_⟩
  have h5 : weightChangeRatioOf (twoTokenSt.poolWeights.getD 1 1)
      (List.getD [ONE - 10 ^ 13, 10 ^ 13] 1 1) =
      Except.ok (5 * 10 ^ 22) := by rfl
  rw [h5] at hr
  injection hr with h
  rw [← h]
  decide

theorem bind_ok_inv {α β : Type} {e : Except VErr α} {k : α → Except VErr β}
    {v : β} (h : (e >>= k) = .ok v) : ∃ a, e = .ok a ∧ k a = .ok v := by
  cases e with
  | error err => rw [error_bind] at h; exact Except.noConfusion h
  | ok a => exact ⟨a, rfl, by rw [ok_bind] at h; exact h⟩

theorem validateLen_ok {cfg : Cfg} {vals w : List Nat}
    (h : validateLen cfg vals = .ok w) : w = vals := by
  unfold validateLen at h
  split at h
  · injection h with h'
    exact h'.symm
  · exact Except.noConfusion h

theorem getHoldings_congr {cfg : Cfg} {s1 s2 : VaultState}
    (h1 : s1.poolHoldings = s2.poolHoldings)
    (h2 : s1.yieldBalances = s2.yieldBalances)
    (h3 : s1.guardiansFeeTotal = s2.guardiansFeeTotal) :
    getHoldings cfg s1 = getHoldings cfg s2 := by
  unfold getHoldings
  rw [h1, h2, h3]

theorem updatePoolWeights_fields {st : VaultState} {w : List Nat} {s : Nat}
    {st' : VaultState} (h : updatePoolWeights st w s = .ok st') :
    st'.poolHoldings = st.poolHoldings ∧
    st'.vaultBalances = st.vaultBalances ∧
    st'.yieldBalances = st.yieldBalances ∧
    st'.guardiansFeeTotal = st.guardiansFeeTotal := by
  unfold updatePoolWeights at h
  obtain ⟨nw, hnw, h⟩ := bind_ok_inv h
  simp only [Pure.pure, Except.pure, Except.ok.injEq] at h
  subst h
  exact ⟨rfl, rfl, rfl, rfl⟩

theorem depositToPool_fields {st : VaultState} {a : List Nat}
    {st' : VaultState} (h : depositToPool st a = .ok st') :
    addLists st.poolHoldings a = .ok st'.poolHoldings ∧
    subLists st.vaultBalances a = .ok st'.vaultBalances ∧
    st'.yieldBalances = st.yieldBalances ∧
    st'.guardiansFeeTotal = st.guardiansFeeTotal := by
  unfold depositToPool at h
  obtain ⟨ph, hph, h⟩ := bind_ok_inv h
  obtain ⟨vb, hvb, h⟩ := bind_ok_inv h
  simp only [Pure.pure, Except.pure, Except.ok.injEq] at h
  subst h
  exact ⟨hph, hvb, rfl, rfl⟩

theorem withdrawFromPool_fields {st : VaultState} {a : List Nat}
    {st' : VaultState} (h : withdrawFromPool st a = .ok st') :
    subLists st.poolHoldings a = .ok st'.poolHoldings ∧
    addLists st.vaultBalances a = .ok st'.vaultBalances ∧
    st'.yieldBalances = st.yieldBalances ∧
    st'.guardiansFeeTotal = st.guardiansFeeTotal := by
  unfold withdrawFromPool at h
  obtain ⟨ph, hph, h⟩ := bind_ok_inv h
  obtain ⟨vb, hvb, h⟩ := bind_ok_inv h
  simp only [Pure.pure, Except.pure, Except.ok.injEq] at h
  subst h
  exact ⟨hph, hvb, rfl, rfl⟩

theorem depositTokens_fields {cfg : Cfg} {st : VaultState} {A : List Nat}
    {st' : VaultState} {nb : List Nat}
    (h : depositTokens cfg st A = .ok (st', nb)) :
    addLists st.poolHoldings (A.take cfg.numPoolTokens) =
      .ok st'.poolHoldings ∧
    addLists st.yieldBalances (A.drop cfg.numPoolTokens) =
      .ok st'.yieldBalances ∧
    st'.vaultBalances = st.vaultBalances ∧
    st'.guardiansFeeTotal = st.guardiansFeeTotal ∧
    nb = A := by
  unfold depositTokens at h
  obtain ⟨vb, hvb, h⟩ := bind_ok_inv h
  obtain ⟨yb, hyb, h⟩ := bind_ok_inv h
  obtain ⟨st2, hdp, h⟩ := bind_ok_inv h
  have hdpf := depositToPool_fields hdp
  have hph : addLists st.poolHoldings (A.take cfg.numPoolTokens) =
      .ok st2.poolHoldings := hdpf.1
  have hvb2 : subLists vb (A.take cfg.numPoolTokens) =
      .ok st2.vaultBalances := hdpf.2.1
  have hyb2 : st2.yieldBalances = yb := hdpf.2.2.1
  have hgft2 : st2.guardiansFeeTotal = st.guardiansFeeTotal := hdpf.2.2.2
  simp only [Pure.pure, Except.pure, Except.ok.injEq, Prod.mk.injEq] at h
  obtain ⟨rfl, rfl⟩ := h
  have hres := subLists_of_addLists hvb
  rw [hres] at hvb2
  injection hvb2 with hvbe
  exact ⟨hph, by rw [hyb2]; exact hyb, hvbe.symm, hgft2, rfl⟩

theorem ite_bind_comm {α β : Type} (c : Prop) [Decidable c]
    (e1 e2 : Except VErr α) (k : α → Except VErr β) :
    (if c then e1 >>= k else e2 >>= k) = ((if c then e1 else e2) >>= k) := by
  split <;> rfl

theorem depositFinish_fields {cfg : Cfg} {env : Env} {st2 : VaultState}
    {w1 : List Nat} {ws1 : Nat} {X : List Nat} {stD : VaultState}
    {dep ew : List Nat}
    (h : (do
      let st3 ← updatePoolWeights st2 w1 ws1
      let ewv ← getNormalizedWeights cfg env st3
      pure (st3, X, ewv) : Except VErr (VaultState × List Nat × List Nat)) =
      .ok (stD, dep, ew)) :
    stD.poolHoldings = st2.poolHoldings ∧
    stD.vaultBalances = st2.vaultBalances ∧
    stD.yieldBalances = st2.yieldBalances ∧
    stD.guardiansFeeTotal = st2.guardiansFeeTotal := by
  obtain ⟨st3, hup, h⟩ := bind_ok_inv h
  obtain ⟨hu1, hu2, hu3, hu4⟩ := updatePoolWeights_fields hup
  obtain ⟨ewv, hew, h⟩ := bind_ok_inv h
  simp only [Pure.pure, Except.pure, Except.ok.injEq, Prod.mk.injEq] at h
  obtain ⟨h1, h2, h3⟩ := h
  rw [← h1]
  exact ⟨hu1, hu2, hu3, hu4⟩

theorem depositTokensAndUpdateWeights_effects {cfg : Cfg} {env : Env}
    {st : VaultState} {A : List Nat} {pt : PriceType} {stD : VaultState}
    {dep ew : List Nat} (hfee : cfg.managementFee = 0)
    (h : depositTokensAndUpdateWeights cfg env st A pt =
      .ok (stD, dep, ew)) :
    addLists st.poolHoldings (A.take cfg.numPoolTokens) =
      .ok stD.poolHoldings ∧
    addLists st.yieldBalances (A.drop cfg.numPoolTokens) =
      .ok stD.yieldBalances ∧
    stD.vaultBalances = st.vaultBalances ∧
    stD.guardiansFeeTotal = st.guardiansFeeTotal := by
  unfold depositTokensAndUpdateWeights at h
  rw [lockGuardianFees_of_feeZero cfg env st false hfee, ok_bind] at h
  obtain ⟨amounts, hvl, h⟩ := bind_ok_inv h
  rw [validateLen_ok hvl] at h
  simp only [] at h
  rw [ite_bind_comm] at h
  obtain ⟨pr, hpr, h⟩ := bind_ok_inv h
  obtain ⟨dp, ptx⟩ := pr
  obtain ⟨dt, hdt, h⟩ := bind_ok_inv h
  obtain ⟨st2, nb⟩ := dt
  obtain ⟨hph, hyb, hvb, hgft, hnb⟩ := depositTokens_fields hdt
  have hcollect : stD.poolHoldings = st2.poolHoldings ∧
      stD.vaultBalances = st2.vaultBalances ∧
      stD.yieldBalances = st2.yieldBalances ∧
      stD.guardiansFeeTotal = st2.guardiansFeeTotal := by
    simp only [] at h
    split at h
    · obtain ⟨nmh, hnm, h⟩ := bind_ok_inv h
      split at h
      · obtain ⟨wl, hwl, h⟩ := bind_ok_inv h
        exact depositFinish_fields h
      · rw [throw_bind] at h
        exact Except.noConfusion h
    · obtain ⟨wl, hwl, h⟩ := bind_ok_inv h
      exact depositFinish_fields h
  obtain ⟨hc1, hc2, hc3, hc4⟩ := hcollect
  exact ⟨by rw [hc1]; exact hph, by rw [hc3]; exact hyb,
    by rw [hc2]; exact hvb, by rw [hc4]; exact hgft⟩

theorem withdrawTokens_effects {cfg : Cfg} {env : Env} {st : VaultState}
    {A : List Nat} {stW : VaultState} {outs ew : List Nat}
    (hfee : cfg.managementFee = 0)
    (h : withdrawTokens cfg env st A = .ok (stW, outs, ew)) :
    subLists st.poolHoldings (A.take cfg.numPoolTokens) =
      .ok stW.poolHoldings ∧
    stW.guardiansFeeTotal = st.guardiansFeeTotal ∧
    ∃ op vb1 vb2 outsY,
      withdrawTokensYieldLoop cfg op (A.drop cfg.numPoolTokens)
        cfg.yieldTokens env.wrappers st.yieldBalances vb1 =
        .ok (stW.yieldBalances, vb2, outsY) := by
  unfold withdrawTokens at h
  rw [lockGuardianFees_of_feeZero cfg env st false hfee, ok_bind] at h
  obtain ⟨holdings, hh, h⟩ := bind_ok_inv h
  obtain ⟨amounts, hvl, h⟩ := bind_ok_inv h
  rw [validateLen_ok hvl] at h
  obtain ⟨u1, hcwa, h⟩ := bind_ok_inv h
  obtain ⟨opu, hop, h⟩ := bind_ok_inv h
  obtain ⟨op, ua⟩ := opu
  obtain ⟨u2, hcos, h⟩ := bind_ok_inv h
  obtain ⟨st4, hwfp, h⟩ := bind_ok_inv h
  obtain ⟨hsub, hadd, hyb4, hgft4⟩ := withdrawFromPool_fields hwfp
  obtain ⟨vb1, hvb1, h⟩ := bind_ok_inv h
  obtain ⟨pwl, hpwl, h⟩ := bind_ok_inv h
  obtain ⟨w1, ws1⟩ := pwl
  obtain ⟨ylt, hyl, h⟩ := bind_ok_inv h
  obtain ⟨yb2, ylt2⟩ := ylt
  obtain ⟨vb2, outsY⟩ := ylt2
  obtain ⟨st6, hup, h⟩ := bind_ok_inv h
  have hupf := updatePoolWeights_fields hup
  have hph6 : st6.poolHoldings = st4.poolHoldings := hupf.1
  have hyb6 : st6.yieldBalances = yb2 := hupf.2.2.1
  have hgft6 : st6.guardiansFeeTotal = st4.guardiansFeeTotal := hupf.2.2.2
  obtain ⟨ewv, hew, h⟩ := bind_ok_inv h
  simp only [Pure.pure, Except.pure, Except.ok.injEq, Prod.mk.injEq] at h
  obtain ⟨h1, h2, h3⟩ := h
  rw [← h1]
  refine ⟨by rw [hph6]; exact hsub, hgft6.trans hgft4, ?_⟩
  rw [hyb4] at hyl
  rw [← hyb6] at hyl
  exact ⟨op, vb1, vb2, outsY, hyl⟩

theorem withdrawYieldLoop_restores (cfg : Cfg) (op : List Nat) :
    ∀ (as ybs0 ybs : List Nat) (ycs : List YieldTokenCfg)
      (ws : List Wrapper) (vb ybs' vb' outs : List Nat),
    (∀ yc ∈ ycs, yc.withdrawable = true) →
    addLists ybs0 as = .ok ybs →
    withdrawTokensYieldLoop cfg op as ycs ws ybs vb =
      .ok (ybs', vb', outs) →
    ybs' = ybs0 := by
  intro as
  induction as with
  | nil =>
    intro ybs0 ybs ycs ws vb ybs' vb' outs _ hadd hloop
    cases ybs0 with
    | cons y ys => simp [addLists] at hadd
    | nil =>
      simp [addLists] at hadd
      subst hadd
      cases ycs with
      | cons yc ycs' => simp [withdrawTokensYieldLoop] at hloop
      | nil =>
        cases ws with
        | cons w ws' => simp [withdrawTokensYieldLoop] at hloop
        | nil =>
          simp only [withdrawTokensYieldLoop, Except.ok.injEq,
            Prod.mk.injEq] at hloop
          exact hloop.1.symm
  | cons a as ih =>
    intro ybs0 ybs ycs ws vb ybs' vb' outs hall hadd hloop
    cases ybs0 with
    | nil => simp [addLists] at hadd
    | cons y ys =>
      simp only [addLists, bind_ok, pure_ok] at hadd
      obtain ⟨r, hr, hv⟩ := hadd
      subst hv
      cases ycs with
      | nil => simp [withdrawTokensYieldLoop] at hloop
      | cons yc ycs' =>
        cases ws with
        | nil => simp [withdrawTokensYieldLoop] at hloop
        | cons w ws' =>
          have hw : yc.withdrawable = true := hall yc (by simp)
          have hall' : ∀ y ∈ ycs', y.withdrawable = true :=
            fun y hm => hall y (by simp [hm])
          unfold withdrawTokensYieldLoop at hloop
          by_cases ha : 0 < a
          · rw [if_pos ha, if_pos hw] at hloop
            have hns : nsub (y + a) a = .ok y := by
              simp [nsub, Nat.le_add_left, Nat.add_sub_cancel]
            rw [hns, ok_bind] at hloop
            obtain ⟨tr, htr, hloop⟩ := bind_ok_inv hloop
            obtain ⟨ybs2, tr'⟩ := tr
            obtain ⟨vb2, outs2⟩ := tr'
            simp only [Pure.pure, Except.pure, Except.ok.injEq,
              Prod.mk.injEq] at hloop
            obtain ⟨h1, h2, h3⟩ := hloop
            rw [← h1, ih ys r ycs' ws' vb ybs2 vb2 outs2 hall' hr htr]
          · have ha0 : a = 0 := by omega
            rw [if_neg ha] at hloop
            obtain ⟨tr, htr, hloop⟩ := bind_ok_inv hloop
            obtain ⟨ybs2, tr'⟩ := tr
            obtain ⟨vb2, outs2⟩ := tr'
            simp only [Pure.pure, Except.pure, Except.ok.injEq,
              Prod.mk.injEq] at hloop
            obtain ⟨h1, h2, h3⟩ := hloop
            subst ha0
            rw [← h1, ih ys r ycs' ws' vb ybs2 vb2 outs2 hall' hr htr,
              Nat.add_zero]

/-- C3 (amended): with `managementFee = 0`, a deposit of amounts `A`
immediately followed by a successful withdrawal of the same amounts `A`
always restores the pool-token holdings and the outstanding-fee vector
exactly, and — when every yield token is withdrawable — restores the
yield-token balances and hence the reported holdings of every token slot
exactly.  (For a non-withdrawable yield slot the round trip need not
conserve holdings: the withdrawal path silently under-delivers, see the
counterexample.) -/
theorem C3_value_conservation (cfg : Cfg) (env : Env) (st : VaultState)
    (A : List Nat) (pt : PriceType) (stD : VaultState) (dep ew1 : List Nat)
    (stW : VaultState) (outs ew2 : List Nat)
    (hfee : cfg.managementFee = 0)
    (hdep : depositTokensAndUpdateWeights cfg env st A pt =
      .ok (stD, dep, ew1))
    (hwd : withdrawTokens cfg env stD A = .ok (stW, outs, ew2)) :
    stW.poolHoldings = st.poolHoldings ∧
    stW.guardiansFeeTotal = st.guardiansFeeTotal ∧
    ((∀ yc ∈ cfg.yieldTokens, yc.withdrawable = true) →
      stW.yieldBalances = st.yieldBalances ∧
      getHoldings cfg stW = getHoldings cfg st) := by
  obtain ⟨hph, hyb, hvbD, hgftD⟩ :=
    depositTokensAndUpdateWeights_effects hfee hdep
  obtain ⟨hph2, hgftW, op, vb1, vb2, outsY, hyl⟩ :=
    withdrawTokens_effects hfee hwd
  have hphr := subLists_of_addLists hph
  rw [hphr] at hph2
  injection hph2 with hphe
  have hph3 : stW.poolHoldings = st.poolHoldings := hphe.symm
  have hgft3 : stW.guardiansFeeTotal = st.guardiansFeeTotal :=
    hgftW.trans hgftD
  refine ⟨hph3, hgft3, fun hall => ?_⟩
  have hybr := withdrawYieldLoop_restores cfg op
    (A.drop cfg.numPoolTokens) st.yieldBalances stD.yieldBalances
    cfg.yieldTokens env.wrappers vb1 stW.yieldBalances vb2 outsY
    hall hyb hyl
  exact ⟨hybr, getHoldings_congr hph3 hybr hgft3⟩

set_option maxRecDepth 40000 in
/-- C3, counterexample to the claim as stated: in the one-pool-token vault
with a non-withdrawable yield token and dust threshold 10
(`yieldCfg`/`yieldSt`, reported holdings `[1000, 100]`), depositing
`[0, 5]` and immediately withdrawing `[0, 5]` both succeed, yet the
withdrawal's yield leg is a silent no-op (5 is below the dust threshold),
the owner receives `[0, 0]`, and the reported holdings end at
`[1000, 105]` — slot 1 does not return to its pre-deposit value. -/
theorem C3_value_conservation_counterexample :
    ∃ stD dep ew1 stW outs ew2,
      depositTokensAndUpdateWeights yieldCfg yieldEnv yieldSt [0, 5]
        PriceType.spot = .ok (stD, dep, ew1) ∧
      withdrawTokens yieldCfg yieldEnv stD [0, 5] =
        .ok (stW, outs, ew2) ∧
      outs = [0, 0] ∧
      getHoldings yieldCfg yieldSt = .ok [1000, 100] ∧
      getHoldings yieldCfg stW = .ok [1000, 105] :=
  ⟨_, _, _, _, _, _, rfl, rfl, rfl, rfl, rfl⟩

set_option maxRecDepth 40000 in
/-- C3, witness: the same round trip in the all-withdrawable variant
(`wdCfg`) restores the pool holdings, the fee vector, the yield balances
and the reported holdings exactly. -/
theorem C3_value_conservation_witness :
    ∃ stD dep ew1 stW outs ew2,
      depositTokensAndUpdateWeights wdCfg yieldEnv yieldSt [0, 5]
        PriceType.spot = .ok (stD, dep, ew1) ∧
      withdrawTokens wdCfg yieldEnv stD [0, 5] = .ok (stW, outs, ew2) ∧
      stW.poolHoldings = yieldSt.poolHoldings ∧
      stW.guardiansFeeTotal = yieldSt.guardiansFeeTotal ∧
      stW.yieldBalances = yieldSt.yieldBalances ∧
      getHoldings wdCfg stW = getHoldings wdCfg yieldSt := by
  have hdep : depositTokensAndUpdateWeights wdCfg yieldEnv yieldSt [0, 5]
      PriceType.spot = .ok ({ yieldSt with yieldBalances := [105] },
        [0, 5], [ONE - 105 * ONE / 1105, 105 * ONE / 1105]) := rfl
  have hwd : withdrawTokens wdCfg yieldEnv
      { yieldSt with yieldBalances := [105] } [0, 5] =
      .ok (yieldSt, [0, 5],
        [ONE - 100 * ONE / 1100, 100 * ONE / 1100]) := rfl
  have h := C3_value_conservation wdCfg yieldEnv yieldSt [0, 5]
    PriceType.spot { yieldSt with yieldBalances := [105] } [0, 5]
    [ONE - 105 * ONE / 1105, 105 * ONE / 1105] yieldSt [0, 5]
    [ONE - 100 * ONE / 1100, 100 * ONE / 1100] rfl hdep hwd
  exact ⟨_, _, _, _, _, _, hdep, hwd, h.1, h.2.1,
    (h.2.2 (by decide)).1, (h.2.2 (by decide)).2⟩

end Mammon
